import Mathlib

/-!
Verification development for the dbt refactoring analyzer
(`refactoring_analyzer.py`).  The Python source is shallowly embedded:

* strings are `List Char` / `String`, Python `re` patterns are interpreted
  by a small backtracking regex engine (`RE`, `reMatch`) whose pattern
  constants mirror the regex literals of the source;
* the `sqlparse` tokenization that `parse_sql_components` relies on is
  modelled by an explicit lexer (`lexToks`) and a parenthesis / aliased
  identifier grouper (`groupParens`, `groupCtes`); token strings
  concatenate back to the input, as sqlparse's do;
* Python `float` arithmetic on similarity and complexity scores is
  modelled by `ℚ` (all scores are finite sums of small rationals);
* Python exceptions are modelled by `Option` (`none` = the call raises);
* fuel arguments bound loops whose Python originals terminate by
  consuming their input; every theorem proved below either holds for all
  fuel values or is evaluated on concrete inputs where the fuel is ample.
-/

namespace DbtRefactor

/-- Python's `\w` over the ASCII range used by the analyzed SQL texts. -/
def isWordChar (c : Char) : Bool := c.isAlphanum || c = '_'

/-- Python's `\s` over the ASCII range (space, tab, newline, CR, VT, FF). -/
def isPySpace (c : Char) : Bool :=
  c = ' ' || c = '\t' || c = '\n' || c = '\r' || c = Char.ofNat 11 || c = Char.ofNat 12

/-- Characters other than `a` (kept as a named predicate so proofs can
refer to it). -/
def notChar (a : Char) (x : Char) : Bool := !(x = a)

/-- Lower-case a character (ASCII, as in `str.lower` for the SQL texts here). -/
def lowerChar (c : Char) : Char := c.toLower

/-- `s.startswith(p)` (character-list based). -/
def hasPrefixStr (s p : String) : Bool := p.toList.isPrefixOf s.toList

/-- `str.lower` on a character list. -/
def lowerStr (s : List Char) : List Char := s.map lowerChar

/-! ### A small regex engine

`RE` covers exactly the constructs appearing in the source's patterns:
literals, character classes, sequencing, ordered alternation, greedy
`*` / `+`, the word boundary `\b`, and Python's `$` (end of string, or
just before one final newline).  `reMatch` is a continuation-passing
backtracking matcher; greedy quantifiers try the longer match first,
alternation tries the left branch first, exactly as Python `re` does. -/

inductive RE where
  | lit : List Char → RE
  | cls : (Char → Bool) → RE
  | seq : RE → RE → RE
  | alt : RE → RE → RE
  | star : RE → RE
  | plus : RE → RE
  | wb : RE
  | eos : RE

/-- Consume a literal character sequence, tracking the previous character. -/
def dropLit : List Char → Option Char → List Char → Option (Option Char × List Char)
  | [], prev, s => some (prev, s)
  | c :: cs, _, x :: s => if x = c then dropLit cs (some x) s else none
  | _ :: _, _, [] => none

/-- Word-character test on an optional character (`none` = text edge). -/
def optWord : Option Char → Bool
  | some c => isWordChar c
  | none => false

/-- Backtracking matcher.  `prev` is the character before the current
position (for `\b`), `k` the continuation receiving the new previous
character and the rest of the input.  The fuel bounds the depth of the
search; all concrete evaluations below use ample fuel. -/
def reMatch {α : Type} : Nat → RE → Option Char → List Char →
    (Option Char → List Char → Option α) → Option α
  | 0, _, _, _, _ => none
  | _ + 1, RE.lit cs, prev, s, k =>
    match dropLit cs prev s with
    | some (p, s') => k p s'
    | none => none
  | _ + 1, RE.cls p, _, s, k =>
    match s with
    | [] => none
    | c :: s' => if p c then k (some c) s' else none
  | fuel + 1, RE.seq a b, prev, s, k =>
    reMatch fuel a prev s (fun p s' => reMatch fuel b p s' k)
  | fuel + 1, RE.alt a b, prev, s, k =>
    (reMatch fuel a prev s k).orElse (fun _ => reMatch fuel b prev s k)
  | fuel + 1, RE.star r, prev, s, k =>
    (reMatch fuel r prev s (fun p s' =>
      if s'.length < s.length then reMatch fuel (RE.star r) p s' k else none)).orElse
      (fun _ => k prev s)
  | fuel + 1, RE.plus r, prev, s, k =>
    reMatch fuel (RE.seq r (RE.star r)) prev s k
  | _ + 1, RE.wb, prev, s, k =>
    let nxt : Option Char := s.head?
    if optWord prev ≠ optWord nxt then k prev s else none
  | _ + 1, RE.eos, prev, s, k =>
    if s = [] ∨ s = ['\n'] then k prev s else none

/-- Fuel that is ample for the source's patterns on a given input. -/
def reFuel (s : List Char) : Nat := (s.length + 8) * 64

/-- Try a match at the current position; on success return the new
previous character and the rest of the input after the match. -/
def reTry (r : RE) (prev : Option Char) (s : List Char) :
    Option (Option Char × List Char) :=
  reMatch (reFuel s) r prev s (fun p s' => some (p, s'))

/-- `len(re.findall(pattern, s))`: scan left to right, counting
non-overlapping matches, advancing one character when a position does not
match (or when a match is empty, as Python does). -/
def reCountAux (r : RE) : Nat → Option Char → List Char → Nat
  | 0, _, _ => 0
  | fuel + 1, prev, s =>
    match reTry r prev s with
    | some (p, s') =>
      if s'.length < s.length then 1 + reCountAux r fuel p s'
      else match s with
        | [] => 1
        | c :: rest => 1 + reCountAux r fuel (some c) rest
    | none =>
      match s with
      | [] => 0
      | c :: rest => reCountAux r fuel (some c) rest

def reCount (r : RE) (s : List Char) : Nat :=
  reCountAux r (s.length + 1) none s

/-- `re.search(pattern, s) is not None`. -/
def reSearchAux (r : RE) : Nat → Option Char → List Char → Bool
  | 0, _, _ => false
  | fuel + 1, prev, s =>
    match reTry r prev s with
    | some _ => true
    | none =>
      match s with
      | [] => false
      | c :: rest => reSearchAux r fuel (some c) rest

def reSearch (r : RE) (s : List Char) : Bool :=
  reSearchAux r (s.length + 1) none s

/-- Sequence a list of regexes. -/
def reSeqList : List RE → RE
  | [] => RE.lit []
  | [r] => r
  | r :: rs => RE.seq r (reSeqList rs)

/-- Ordered alternation of a list of regexes (first match wins). -/
def reAltList : List RE → RE
  | [] => RE.lit []
  | [r] => r
  | r :: rs => RE.alt r (reAltList rs)

def reStr (s : String) : RE := RE.lit s.toList

/-! ### The source's regex pattern constants

Each definition mirrors one regex literal of `refactoring_analyzer.py`;
the count/search functions are applied to already-lowercased text exactly
where the source passes `sql.lower()` or `re.IGNORECASE`. -/

/-- `\bjoin\b` (and the same shape for `union`, `case`, `where`). -/
def wordRe (w : String) : RE := reSeqList [RE.wb, reStr w, RE.wb]

/-- `left\s+join` / `inner\s+join` / `group\s+by`. -/
def twoWordRe (a b : String) : RE :=
  reSeqList [reStr a, RE.plus (RE.cls isPySpace), reStr b]

/-- `over\s*\(`. -/
def overParenRe : RE :=
  reSeqList [reStr "over", RE.star (RE.cls isPySpace), reStr "("]

/-- `\b(sum|avg|count|min|max)\s*\(`. -/
def aggRe : RE :=
  reSeqList [RE.wb,
    reAltList [reStr "sum", reStr "avg", reStr "count", reStr "min", reStr "max"],
    RE.star (RE.cls isPySpace), reStr "("]

/-- The counts the source takes over `sql.lower()`. -/
def countJoins (s : List Char) : Nat := reCount (wordRe "join") s
def countLeftJoins (s : List Char) : Nat := reCount (twoWordRe "left" "join") s
def countInnerJoins (s : List Char) : Nat := reCount (twoWordRe "inner" "join") s
def countGroupBy (s : List Char) : Nat := reCount (twoWordRe "group" "by") s
def countWindowFuncs (s : List Char) : Nat := reCount overParenRe s
def countUnions (s : List Char) : Nat := reCount (wordRe "union") s
def countCases (s : List Char) : Nat := reCount (wordRe "case") s
def countAggregations (s : List Char) : Nat := reCount aggRe s
def countFilters (s : List Char) : Nat := reCount (wordRe "where") s

/-! ### `ref('...')` extraction

`re.findall(r"ref\(['\"]([^'\"]+)['\"]\)", s)`, returning the captured
model names.  The character class excludes both quote characters, so the
greedy run is deterministic and needs no backtracking. -/

def isQuoteChar (c : Char) : Bool := c = '\'' || c = '"'

/-- Try the `ref(...)` pattern at the current position; on success return
the captured name and the rest of the input after the match. -/
def refAt (s : List Char) : Option (List Char × List Char) :=
  match s with
  | 'r' :: 'e' :: 'f' :: '(' :: q :: rest =>
    if isQuoteChar q then
      let body := rest.takeWhile (fun c => ¬ isQuoteChar c)
      match rest.dropWhile (fun c => ¬ isQuoteChar c) with
      | q2 :: ')' :: tail =>
        if isQuoteChar q2 ∧ body ≠ [] then some (body, tail) else none
      | _ => none
    else none
  | _ => none

def extractRefsAux : Nat → List Char → List (List Char)
  | 0, _ => []
  | _ + 1, [] => []
  | fuel + 1, c :: rest =>
    match refAt (c :: rest) with
    | some (name, tail) => name :: extractRefsAux fuel tail
    | none => extractRefsAux fuel rest

def extractRefs (s : String) : List String :=
  (extractRefsAux (s.toList.length + 1) s.toList).map String.mk

/-! ### The config block

`re.search(r'({{\s*config[^}]+}})', sql, re.DOTALL)`: the source keeps the
matched text and continues parsing from `sql[match.end():].strip()`. -/

def openBrace : Char := Char.ofNat 123
def closeBrace : Char := Char.ofNat 125

/-- Try the config pattern at the current position; on success return the
matched text and the rest of the input after the match. -/
def configAt (s : List Char) : Option (List Char × List Char) :=
  match s with
  | b1 :: b2 :: rest =>
    if b1 = openBrace ∧ b2 = openBrace then
      match dropLit "config".toList none (rest.dropWhile isPySpace) with
      | some (_, r2) =>
        match r2.dropWhile (notChar closeBrace) with
        | c1 :: c2 :: tail =>
          if c1 = closeBrace ∧ c2 = closeBrace ∧
              r2.takeWhile (notChar closeBrace) ≠ [] then
            some (b1 :: b2 :: (rest.takeWhile isPySpace ++ "config".toList ++
              r2.takeWhile (notChar closeBrace) ++ [c1, c2]), tail)
          else none
        | _ => none
      | none => none
    else none
  | _ => none

def findConfigAux : Nat → List Char → Option (List Char × List Char)
  | 0, _ => none
  | _ + 1, [] => none
  | fuel + 1, c :: rest =>
    match configAt (c :: rest) with
    | some r => some r
    | none => findConfigAux fuel rest

/-- Python `str.strip()` (whitespace from both ends). -/
def pyStrip (s : List Char) : List Char :=
  ((s.dropWhile isPySpace).reverse.dropWhile isPySpace).reverse

/-! ### `is_constant_cte`

The six `re.search(pattern, sql, re.IGNORECASE)` patterns of the source,
applied to the lower-cased token text. -/

def nonParenCls : RE := RE.cls (fun c => ¬ (c = '(' ∨ c = ')'))

def spacePlus : RE := RE.plus (RE.cls isPySpace)

def spaceStar : RE := RE.star (RE.cls isPySpace)

/-- `select\s+[^()]+\s+as\s+\w+\s*$` -/
def constantPattern1 : RE :=
  reSeqList [reStr "select", spacePlus, RE.plus nonParenCls, spacePlus,
    reStr "as", spacePlus, RE.plus (RE.cls isWordChar), spaceStar, RE.eos]

/-- `select\s+\d+` -/
def constantPattern2 : RE :=
  reSeqList [reStr "select", spacePlus, RE.plus (RE.cls Char.isDigit)]

/-- `select\s+'[^']+'` -/
def constantPattern3 : RE :=
  reSeqList [reStr "select", spacePlus, RE.lit ['\''],
    RE.plus (RE.cls (fun c => c ≠ '\'')), RE.lit ['\'']]

/-- `select\s+current_date` -/
def constantPattern4 : RE := reSeqList [reStr "select", spacePlus, reStr "current_date"]

/-- `select\s+getdate\(\)` -/
def constantPattern5 : RE :=
  reSeqList [reStr "select", spacePlus, reStr "getdate", reStr "()"]

/-- `select\s+[^;]+from\s+\w+\s+where\s+1\s*=\s*1` -/
def constantPattern6 : RE :=
  reSeqList [reStr "select", spacePlus, RE.plus (RE.cls (fun c => c ≠ ';')),
    reStr "from", spacePlus, RE.plus (RE.cls isWordChar), spacePlus,
    reStr "where", spacePlus, RE.lit ['1'], spaceStar, RE.lit ['='],
    spaceStar, RE.lit ['1']]

def constantPatterns : List RE :=
  [constantPattern1, constantPattern2, constantPattern3,
   constantPattern4, constantPattern5, constantPattern6]

/-- `is_constant_cte`: any of the constant patterns matches somewhere in
the CTE token's text (case-insensitively). -/
def is_constant_cte (s : List Char) : Bool :=
  constantPatterns.any (fun r => reSearch r (lowerStr s))

/-! ### The sqlparse token model

`parse_sql_components` consumes `sqlparse.parse(sql)[0].tokens`.  The
behaviours it relies on are modelled here: a lossless lexer (token values
concatenate back to the input), parenthesis groups, aliased-identifier
groups (`name AS (...)`, the shape a WITH-clause CTE takes), line
comments as single tokens, and the DML `select` keyword locating the
main query. -/

inductive Tok where
  | ws : List Char → Tok
  | word : List Char → Tok
  | num : List Char → Tok
  | strlit : List Char → Tok
  | comment : List Char → Tok
  | punct : Char → Tok
deriving DecidableEq

def tokVal : Tok → List Char
  | Tok.ws s => s
  | Tok.word s => s
  | Tok.num s => s
  | Tok.strlit s => s
  | Tok.comment s => s
  | Tok.punct c => [c]

def lexToks : Nat → List Char → List Tok
  | 0, _ => []
  | _ + 1, [] => []
  | fuel + 1, c :: rest =>
    if isPySpace c then
      Tok.ws ((c :: rest).takeWhile isPySpace) ::
        lexToks fuel ((c :: rest).dropWhile isPySpace)
    else if c.isAlpha || c = '_' then
      Tok.word ((c :: rest).takeWhile isWordChar) ::
        lexToks fuel ((c :: rest).dropWhile isWordChar)
    else if c.isDigit then
      Tok.num ((c :: rest).takeWhile Char.isDigit) ::
        lexToks fuel ((c :: rest).dropWhile Char.isDigit)
    else if c = '-' ∧ rest.head? = some '-' then
      match (c :: rest).dropWhile (notChar '\n') with
      | '\n' :: r' =>
        Tok.comment ((c :: rest).takeWhile (notChar '\n') ++ ['\n']) ::
          lexToks fuel r'
      | _ => [Tok.comment ((c :: rest).takeWhile (notChar '\n'))]
    else if c = '\'' then
      match rest.dropWhile (notChar '\'') with
      | '\'' :: r' =>
        Tok.strlit ('\'' :: rest.takeWhile (notChar '\'') ++ ['\'']) ::
          lexToks fuel r'
      | _ => [Tok.strlit ('\'' :: rest.takeWhile (notChar '\''))]
    else
      Tok.punct c :: lexToks fuel rest

/-- Grouped tokens: leaves, parenthesis groups, and aliased-identifier
groups (the children lists keep every original token as a leaf, so the
string value of a group is the concatenation of its leaves). -/
inductive GTok where
  | leaf : Tok → GTok
  | paren : List GTok → GTok
  | cte : List Char → List GTok → GTok

mutual
def gval : GTok → List Char
  | GTok.leaf t => tokVal t
  | GTok.paren ts => gvalList ts
  | GTok.cte _ ts => gvalList ts
def gvalList : List GTok → List Char
  | [] => []
  | g :: gs => gval g ++ gvalList gs
end

mutual
def gleaves : GTok → List Tok
  | GTok.leaf t => [t]
  | GTok.paren ts => gleavesList ts
  | GTok.cte _ ts => gleavesList ts
def gleavesList : List GTok → List Tok
  | [] => []
  | g :: gs => gleaves g ++ gleavesList gs
end

/-- Parenthesis grouping: parse until an unmatched `)` or the end of the
input, returning the grouped items and the unconsumed rest. -/
def gpAux : Nat → List Tok → (List GTok × List Tok)
  | 0, ts => ([], ts)
  | _ + 1, [] => ([], [])
  | fuel + 1, t :: rest =>
    if t = Tok.punct '(' then
      let p := gpAux fuel rest
      match p.2 with
      | Tok.punct ')' :: r' =>
        let q := gpAux fuel r'
        (GTok.paren (GTok.leaf (Tok.punct '(') :: p.1 ++ [GTok.leaf (Tok.punct ')')]) :: q.1,
          q.2)
      | _ => ([GTok.paren (GTok.leaf (Tok.punct '(') :: p.1)], p.2)
    else if t = Tok.punct ')' then ([], t :: rest)
    else
      let p := gpAux fuel rest
      (GTok.leaf t :: p.1, p.2)

/-- Top-level grouping: unmatched `)` stays a plain leaf. -/
def gpTop : Nat → List Tok → List GTok
  | 0, _ => []
  | fuel + 1, ts =>
    let p := gpAux (ts.length + 1) ts
    match p.2 with
    | [] => p.1
    | Tok.punct ')' :: rest => p.1 ++ GTok.leaf (Tok.punct ')') :: gpTop fuel rest
    | _ => p.1

/-- The aliased-identifier shape `name AS ( ... )` at the head of a
grouped token stream: the match, when it fires, returns the CTE name,
the children of the resulting group, and the unconsumed rest. -/
def cteMatch (g : GTok) (rest : List GTok) :
    Option (List Char × List GTok × List GTok) :=
  match g, rest with
  | GTok.leaf (Tok.word n), GTok.leaf (Tok.ws w) :: GTok.leaf (Tok.word a) ::
      GTok.leaf (Tok.ws w2) :: GTok.paren ps :: rest' =>
    if lowerStr a = "as".toList then
      some (n, [GTok.leaf (Tok.word n), GTok.leaf (Tok.ws w), GTok.leaf (Tok.word a),
        GTok.leaf (Tok.ws w2), GTok.paren ps], rest')
    else none
  | _, _ => none

/-- Aliased-identifier grouping at the top level: `name AS ( ... )`, the
shape sqlparse groups into an `Identifier` for a WITH-clause CTE. -/
def groupCtes : Nat → List GTok → List GTok
  | 0, gs => gs
  | _ + 1, [] => []
  | fuel + 1, g :: rest =>
    match cteMatch g rest with
    | some (n, children, rest') => GTok.cte n children :: groupCtes fuel rest'
    | none => g :: groupCtes fuel rest

/-! ### `parse_sql_components` -/

/-- Python sets the source iterates are embedded as deduplicated lists
(Python's set iteration order is arbitrary; the embedding fixes one). -/
structure CTEReference where
  name : String
  dependencies : List String
  columns_used : List String
  filters : List String
  is_constant : Bool
  raw_sql : String
deriving DecidableEq

structure SQLComponent where
  config : Option String
  ctes : List (String × CTEReference)
  main_query : String
  column_refs : List (String × List String)
deriving DecidableEq

/-- Insert-or-overwrite on an insertion-ordered association list,
mirroring Python `dict` assignment. -/
def upsert {α : Type} (k : String) (v : α) : List (String × α) → List (String × α)
  | [] => [(k, v)]
  | (k', v') :: rest => if k' = k then (k, v) :: rest else (k', v') :: upsert k v rest

/-- A grouped token is the DML `select` keyword (the source's
`token.ttype is DML and token.value.lower() == 'select'`). -/
def isSelectG : GTok → Bool
  | GTok.leaf (Tok.word w) => lowerStr w = "select".toList
  | _ => false

/-- The main query: every token from the first top-level DML `select`
onwards, stringified and concatenated. -/
def mainQueryVal (gs : List GTok) : List Char :=
  gvalList (gs.dropWhile (fun g => ¬ isSelectG g))

/-- One CTE record from an aliased-identifier group.  The dependency set
comes from the `ref(...)` occurrences in the parenthesis part (the only
sub-token that is a token list); `columns_used` is empty because every
flattened leaf token carries a concrete sqlparse ttype, so the source's
`ttype in (None,)` filter collects nothing; `filters` is empty because
the identifier's direct children are the name, whitespace, `AS` and the
parenthesis group, never a `Where` group. -/
def cteRecordOf (n : List Char) (children : List GTok) : CTEReference :=
  let parenStr := gvalList (children.filter (fun g =>
    match g with | GTok.paren _ => true | _ => false))
  { name := String.mk n
    dependencies := (extractRefs (String.mk parenStr)).dedup
    columns_used := []
    filters := []
    is_constant := is_constant_cte (gvalList children)
    raw_sql := String.mk (gvalList children) }

def parseCtes (gs : List GTok) : List (String × CTEReference) :=
  gs.foldl (fun acc g =>
    match g with
    | GTok.cte n children => upsert (String.mk n) (cteRecordOf n children) acc
    | _ => acc) []

/-- Config-block extraction: the source keeps the matched config text and
continues from `sql[match.end():].strip()` (everything before the match is
discarded along with it). -/
def strippedInput (s : List Char) : Option String × List Char :=
  match findConfigAux (s.length + 1) s with
  | some (m, tail) => (some (String.mk m), pyStrip tail)
  | none => (none, s)

/-- The grouped token stream sqlparse hands to the source's token loop. -/
def groupedToks (s : List Char) : List GTok :=
  let toks := lexToks (s.length + 1) s
  groupCtes (toks.length + 1) (gpTop (toks.length + 1) toks)

/-- `parse_sql_components`.  `none` models the `IndexError` the source
raises when, after removing the config block and stripping, nothing is
left for `sqlparse.parse(sql)[0]` to index. -/
def parse_sql_components (sqlIn : String) : Option SQLComponent :=
  let st := strippedInput sqlIn.toList
  if st.2 = [] then none
  else
    let gs := groupedToks st.2
    let ctes := parseCtes gs
    some { config := st.1
           ctes := ctes
           main_query := String.mk (mainQueryVal gs)
           column_refs := ctes.map (fun p => (p.1, p.2.columns_used)) }

/-! ### Parser infrastructure lemmas -/

lemma head_dropWhile_false {p : Char → Bool} :
    ∀ (l : List Char) {x : Char} {r : List Char}, l.dropWhile p = x :: r → p x = false := by
  intro l
  induction l with
  | nil => intro x r h; simp [List.dropWhile] at h
  | cons a l ih =>
    intro x r h
    by_cases ha : p a
    · rw [List.dropWhile_cons_of_pos ha] at h; exact ih h
    · rw [List.dropWhile_cons_of_neg ha] at h
      cases h; simpa using ha

lemma lexToks_join :
    ∀ (fuel : Nat) (s : List Char), s.length ≤ fuel →
      ((lexToks fuel s).map tokVal).flatten = s := by
  intro fuel
  induction fuel with
  | zero =>
    intro s hs
    have : s = [] := List.eq_nil_of_length_eq_zero (Nat.le_zero.mp hs)
    subst this; simp [lexToks]
  | succ n ih =>
    intro s hs
    match s with
    | [] => simp [lexToks]
    | c :: rest =>
      have hrest : rest.length ≤ n := by
        simp only [List.length_cons] at hs; omega
      by_cases h1 : isPySpace c
      · have hd : (c :: rest).dropWhile isPySpace = rest.dropWhile isPySpace :=
          List.dropWhile_cons_of_pos h1
        have hlen : (rest.dropWhile isPySpace).length ≤ n :=
          le_trans (List.Sublist.length_le (List.dropWhile_sublist _)) hrest
        simp only [lexToks, h1, if_true, List.map_cons, List.flatten_cons, tokVal]
        rw [hd, ih _ hlen, ← hd, List.takeWhile_append_dropWhile]
      · rw [Bool.not_eq_true] at h1
        by_cases h2 : (c.isAlpha || decide (c = '_')) = true
        · have hw : isWordChar c := by
            rcases Bool.or_eq_true_iff.mp h2 with h | h
            · simp [isWordChar, Char.isAlphanum, h]
            · simp [isWordChar, of_decide_eq_true h]
          have hd : (c :: rest).dropWhile isWordChar = rest.dropWhile isWordChar :=
            List.dropWhile_cons_of_pos hw
          have hlen : (rest.dropWhile isWordChar).length ≤ n :=
            le_trans (List.Sublist.length_le (List.dropWhile_sublist _)) hrest
          simp only [lexToks, h1, h2, Bool.false_eq_true, if_false, if_true,
            List.map_cons, List.flatten_cons, tokVal]
          rw [hd, ih _ hlen, ← hd, List.takeWhile_append_dropWhile]
        · rw [Bool.not_eq_true] at h2
          by_cases h3 : c.isDigit
          · have hd : (c :: rest).dropWhile Char.isDigit = rest.dropWhile Char.isDigit :=
              List.dropWhile_cons_of_pos h3
            have hlen : (rest.dropWhile Char.isDigit).length ≤ n :=
              le_trans (List.Sublist.length_le (List.dropWhile_sublist _)) hrest
            simp only [lexToks, h1, h2, h3, Bool.false_eq_true, if_false, if_true,
              List.map_cons, List.flatten_cons, tokVal]
            rw [hd, ih _ hlen, ← hd, List.takeWhile_append_dropWhile]
          · rw [Bool.not_eq_true] at h3
            by_cases h4 : c = '-' ∧ rest.head? = some '-'
            · rcases hcase : (c :: rest).dropWhile (notChar '\n') with _ | ⟨x, r'⟩
              · have htake : (c :: rest).takeWhile (notChar '\n') = c :: rest := by
                  have h := List.takeWhile_append_dropWhile
                    (p := notChar '\n') (l := c :: rest)
                  rw [hcase] at h; simpa using h
                simp only [lexToks, h1, h2, h3, Bool.false_eq_true, if_false]
                rw [if_pos h4, hcase]
                simp [tokVal, htake]
              · have hx : x = '\n' := by
                  have h := head_dropWhile_false _ hcase
                  simpa [notChar] using h
                subst hx
                have happ : (c :: rest).takeWhile (notChar '\n') ++
                    '\n' :: r' = c :: rest := by
                  have h := List.takeWhile_append_dropWhile
                    (p := notChar '\n') (l := c :: rest)
                  rw [hcase] at h; exact h
                have hlen : r'.length ≤ n := by
                  have h := congrArg List.length happ
                  simp only [List.length_append, List.length_cons] at h
                  omega
                simp only [lexToks, h1, h2, h3, Bool.false_eq_true, if_false]
                rw [if_pos h4, hcase]
                simp only [List.map_cons, List.flatten_cons, tokVal]
                rw [ih _ hlen, List.append_assoc]
                simpa using happ
            · by_cases h5 : c = '\''
              · rcases hcase : rest.dropWhile (notChar '\'') with _ | ⟨x, r'⟩
                · have htake : rest.takeWhile (notChar '\'') = rest := by
                    have h := List.takeWhile_append_dropWhile
                      (p := notChar '\'') (l := rest)
                    rw [hcase] at h; simpa using h
                  simp only [lexToks, h1, h2, h3, Bool.false_eq_true, if_false]
                  rw [if_neg h4, if_pos h5, hcase]
                  simp [tokVal, htake, h5]
                · have hx : x = '\'' := by
                    have h := head_dropWhile_false _ hcase
                    simpa [notChar] using h
                  subst hx
                  have happ : rest.takeWhile (notChar '\'') ++
                      '\'' :: r' = rest := by
                    have h := List.takeWhile_append_dropWhile
                      (p := notChar '\'') (l := rest)
                    rw [hcase] at h; exact h
                  have hlen : r'.length ≤ n := by
                    have h := congrArg List.length happ
                    simp only [List.length_append, List.length_cons] at h
                    omega
                  simp only [lexToks, h1, h2, h3, Bool.false_eq_true, if_false]
                  rw [if_neg h4, if_pos h5, hcase]
                  simp only [List.map_cons, List.flatten_cons, tokVal]
                  rw [ih _ hlen]
                  simp only [h5, List.cons_append, List.append_assoc]
                  rw [List.cons_inj_right]
                  simpa using happ
              · simp only [lexToks, h1, h2, h3, Bool.false_eq_true, if_false]
                rw [if_neg h4, if_neg h5]
                simp only [List.map_cons, List.flatten_cons, tokVal]
                rw [ih _ hrest]
                simp

lemma gleavesList_append (a b : List GTok) :
    gleavesList (a ++ b) = gleavesList a ++ gleavesList b := by
  induction a with
  | nil => simp [gleavesList]
  | cons g gs ih => simp [gleavesList, ih]

lemma gvalList_append (a b : List GTok) :
    gvalList (a ++ b) = gvalList a ++ gvalList b := by
  induction a with
  | nil => simp [gvalList]
  | cons g gs ih => simp [gvalList, ih]

lemma gpAux_leaves :
    ∀ (fuel : Nat) (ts : List Tok),
      gleavesList (gpAux fuel ts).1 ++ (gpAux fuel ts).2 = ts := by
  intro fuel
  induction fuel with
  | zero => intro ts; simp [gpAux, gleavesList]
  | succ n ih =>
    intro ts
    cases ts with
    | nil => simp [gpAux, gleavesList]
    | cons t rest =>
      simp only [gpAux]
      split
      · rename_i h1
        split
        · rename_i r' heq
          have h2 := ih rest
          have h3 := ih r'
          rw [heq] at h2
          simp only [gleavesList, gleaves, gleavesList_append, tokVal,
            List.append_eq, List.cons_append, List.nil_append,
            List.append_assoc, List.singleton_append]
          rw [h3, h2, h1]
        · rename_i heq
          have h2 := ih rest
          simp only [gleavesList, gleaves, tokVal, List.cons_append,
            List.nil_append, List.append_assoc]
          rw [h2, h1]
      · rename_i h1
        split
        · rename_i h2
          simp [gleavesList]
        · rename_i h2
          have h3 := ih rest
          simp only [gleavesList, gleaves, List.cons_append, List.nil_append,
            List.append_assoc, List.singleton_append]
          rw [h3]

lemma cteMatch_leaves {g : GTok} {rest : List GTok} {nm : List Char}
    {ch rest' : List GTok} (h : cteMatch g rest = some (nm, ch, rest')) :
    gleavesList ch ++ gleavesList rest' = gleaves g ++ gleavesList rest := by
  unfold cteMatch at h
  split at h
  · split at h
    · simp only [Option.some.injEq, Prod.mk.injEq] at h
      obtain ⟨rfl, rfl, rfl⟩ := h
      simp [gleavesList, gleaves, tokVal, gleavesList_append]
    · exact absurd h (by simp)
  · exact absurd h (by simp)

lemma groupCtes_gleaves :
    ∀ (fuel : Nat) (gs : List GTok),
      gleavesList (groupCtes fuel gs) = gleavesList gs := by
  intro fuel
  induction fuel with
  | zero => intro gs; rfl
  | succ n ih =>
    intro gs
    cases gs with
    | nil => rfl
    | cons g rest =>
      rcases h : cteMatch g rest with _ | ⟨nm, ch, rest'⟩
      · simp only [groupCtes, h]
        simp [gleavesList, ih]
      · simp only [groupCtes, h]
        have hl := cteMatch_leaves h
        simp only [gleavesList, gleaves, ih]
        rw [hl]

lemma mem_gleavesList_of_mem {g : GTok} {gs : List GTok} (hg : g ∈ gs)
    {t : Tok} (ht : t ∈ gleaves g) : t ∈ gleavesList gs := by
  induction gs with
  | nil => cases hg
  | cons a rest ih =>
    rcases List.mem_cons.mp hg with rfl | h
    · exact List.mem_append_left _ ht
    · exact List.mem_append_right _ (ih h)

lemma gpTop_leaves_subset :
    ∀ (fuel : Nat) (ts : List Tok) (t : Tok),
      t ∈ gleavesList (gpTop fuel ts) → t ∈ ts := by
  intro fuel
  induction fuel with
  | zero => intro ts t h; simp [gpTop, gleavesList] at h
  | succ n ih =>
    intro ts t h
    have hp := gpAux_leaves (ts.length + 1) ts
    simp only [gpTop] at h
    split at h
    · rename_i heq
      rw [heq, List.append_nil] at hp
      rw [← hp]
      exact h
    · rename_i rest heq
      rw [heq] at hp
      rw [gleavesList_append] at h
      rcases List.mem_append.mp h with h1 | h1
      · rw [← hp]; exact List.mem_append_left _ h1
      · simp only [gleavesList, gleaves, tokVal, List.singleton_append] at h1
        rcases List.mem_cons.mp h1 with rfl | h2
        · rw [← hp]
          exact List.mem_append_right _ (List.mem_cons_self _ _)
        · have := ih rest t h2
          rw [← hp]
          exact List.mem_append_right _ (List.mem_cons_of_mem _ this)
    · rename_i heq
      rw [← hp]
      exact List.mem_append_left _ h

lemma dropLit_suffix :
    ∀ (cs : List Char) (prev : Option Char) (s : List Char) (p : Option Char)
      (r : List Char), dropLit cs prev s = some (p, r) → r <:+ s := by
  intro cs
  induction cs with
  | nil =>
    intro prev s p r h
    simp only [dropLit, Option.some.injEq, Prod.mk.injEq] at h
    obtain ⟨rfl, rfl⟩ := h
    exact List.suffix_refl _
  | cons c cs ih =>
    intro prev s p r h
    cases s with
    | nil => simp [dropLit] at h
    | cons x s' =>
      simp only [dropLit] at h
      split at h
      · exact (ih _ _ _ _ h).trans (List.suffix_cons x s')
      · cases h

lemma configAt_suffix {s m tail : List Char} (h : configAt s = some (m, tail)) :
    tail <:+ s := by
  unfold configAt at h
  split at h
  · rename_i b1 b2 rest
    split at h
    · split at h
      · rename_i p r2 hd
        split at h
        · rename_i c1 c2 tail' hdw
          split at h
          · simp only [Option.some.injEq, Prod.mk.injEq] at h
            obtain ⟨-, rfl⟩ := h
            have h2 : r2 <:+ rest.dropWhile isPySpace := dropLit_suffix _ _ _ _ _ hd
            have h3 : c1 :: c2 :: tail' <:+ r2 := by
              rw [← hdw]; exact List.dropWhile_suffix _
            have h4 : tail' <:+ c1 :: c2 :: tail' :=
              (List.suffix_cons c2 tail').trans (List.suffix_cons c1 _)
            have h5 : rest.dropWhile isPySpace <:+ rest := List.dropWhile_suffix _
            have h6 : rest <:+ b1 :: b2 :: rest :=
              (List.suffix_cons b2 rest).trans (List.suffix_cons b1 _)
            exact (((h4.trans h3).trans h2).trans h5).trans h6
          · exact Option.noConfusion h
        · exact Option.noConfusion h
      · exact Option.noConfusion h
    · exact Option.noConfusion h
  · exact Option.noConfusion h

lemma findConfigAux_suffix :
    ∀ (fuel : Nat) (s m tail : List Char),
      findConfigAux fuel s = some (m, tail) → tail <:+ s := by
  intro fuel
  induction fuel with
  | zero => intro s m tail h; cases h
  | succ n ih =>
    intro s m tail h
    cases s with
    | nil => cases h
    | cons c rest =>
      simp only [findConfigAux] at h
      rcases hc : configAt (c :: rest) with _ | ⟨m', tail'⟩
      · rw [hc] at h
        exact (ih _ _ _ h).trans (List.suffix_cons c rest)
      · rw [hc] at h
        simp only [Option.some.injEq, Prod.mk.injEq] at h
        obtain ⟨rfl, rfl⟩ := h
        exact configAt_suffix hc

lemma pyStrip_sublist (l : List Char) : pyStrip l <:+: l := by
  unfold pyStrip
  have h1 : l.dropWhile isPySpace <:+ l := List.dropWhile_suffix _
  have h2 : (l.dropWhile isPySpace).reverse.dropWhile isPySpace <:+
      (l.dropWhile isPySpace).reverse := List.dropWhile_suffix _
  have h3 : ((l.dropWhile isPySpace).reverse.dropWhile isPySpace).reverse <+:
      l.dropWhile isPySpace := by
    rw [← List.reverse_reverse (l.dropWhile isPySpace)]
    exact List.reverse_prefix.mpr (by simpa using h2)
  exact h3.isInfix.trans h1.isInfix

lemma strippedInput_sublist (s : List Char) : (strippedInput s).2 <:+: s := by
  unfold strippedInput
  rcases h : findConfigAux (s.length + 1) s with _ | ⟨m, tail⟩
  · exact List.infix_refl s
  · exact (pyStrip_sublist tail).trans (findConfigAux_suffix _ _ _ _ h).isInfix

/-- If the raw SQL text contains no `select` (case-insensitively), the
parsed component's main query is empty: the token loop never sees a DML
`select` token (every token's text is a substring of the input). -/
lemma parse_main_query_of_no_select (sqlIn : String) (c : SQLComponent)
    (hp : parse_sql_components sqlIn = some c)
    (hns : ¬ ("select".toList <:+: lowerStr sqlIn.toList)) :
    c.main_query = "" := by
  unfold parse_sql_components at hp
  dsimp only at hp
  split at hp
  · cases hp
  · simp only [Option.some.injEq] at hp
    subst hp
    show String.mk (mainQueryVal (groupedToks (strippedInput sqlIn.toList).2)) = ""
    set st := (strippedInput sqlIn.toList).2 with hst
    have hall : ∀ g ∈ groupedToks st, ¬ (isSelectG g = true) := by
      intro g hg hsel
      have hleaf : ∃ w, g = GTok.leaf (Tok.word w) ∧ lowerStr w = "select".toList := by
        cases g with
        | leaf t =>
          cases t with
          | word w => exact ⟨w, rfl, by simpa [isSelectG] using hsel⟩
          | ws s => simp [isSelectG] at hsel
          | num s => simp [isSelectG] at hsel
          | strlit s => simp [isSelectG] at hsel
          | comment s => simp [isSelectG] at hsel
          | punct ch => simp [isSelectG] at hsel
        | paren ts => simp [isSelectG] at hsel
        | cte n ts => simp [isSelectG] at hsel
      obtain ⟨w, rfl, hw⟩ := hleaf
      have hmem : Tok.word w ∈ gleavesList (groupedToks st) :=
        mem_gleavesList_of_mem hg (by simp [gleaves])
      unfold groupedToks at hmem
      rw [groupCtes_gleaves] at hmem
      have htok : Tok.word w ∈ lexToks (st.length + 1) st :=
        gpTop_leaves_subset _ _ _ hmem
      have hval : w ∈ (lexToks (st.length + 1) st).map tokVal :=
        List.mem_map.mpr ⟨Tok.word w, htok, rfl⟩
      have hinf : w <:+: st := by
        have := List.infix_of_mem_flatten hval
        rwa [lexToks_join _ _ (Nat.le_succ _)] at this
      have hinf2 : w <:+: sqlIn.toList := hinf.trans (strippedInput_sublist _)
      have : lowerStr w <:+: lowerStr sqlIn.toList := hinf2.map lowerChar
      rw [hw] at this
      exact hns this
    have hdrop : (groupedToks st).dropWhile (fun g => ¬ isSelectG g) = [] := by
      rw [List.dropWhile_eq_nil_iff]
      intro x hx
      simpa using hall x hx
    unfold mainQueryVal
    rw [hdrop]
    rfl

/-! ### The manifest and the dependency graph

`DBTRefactorAnalyzer.__init__` keeps the manifest nodes whose
`resource_type` is `"model"` and builds `dependency_graph`, a defaultdict
mapping each model id to its dependencies that start with `"model."`
(keys exist only for models with at least one such dependency; `get`
returns the empty set elsewhere, which the embedding folds into one
total function). -/

structure ModelNode where
  resource_type : String
  depends_on : List String
  name : Option String
  raw_sql : Option String
  raw_code : Option String
  compiled_code : Option String
  compiled_sql : Option String
  sql : Option String
  refs : List String
  sources : List String
deriving DecidableEq

abbrev Manifest := List (String × ModelNode)

def models (m : Manifest) : List (String × ModelNode) :=
  m.filter (fun p => p.2.resource_type = "model")

def modelIds (m : Manifest) : List String := (models m).map Prod.fst

def lookupModel (m : Manifest) (id : String) : Option ModelNode :=
  (models m).lookup id

/-- `_build_dependency_graph` followed by `dependency_graph.get(id,
set())`, as the deduplicated list the embedding iterates. -/
def graphRefsList (m : Manifest) (id : String) : List String :=
  match lookupModel m id with
  | some node => (node.depends_on.filter (fun d => hasPrefixStr d "model.")).dedup
  | none => []

/-- The same dependency set as a `Finset`. -/
def graphRefs (m : Manifest) (id : String) : Finset String :=
  (graphRefsList m id).toFinset

/-- `get_model_refs`. -/
def get_model_refs (m : Manifest) (id : String) : Finset String := graphRefs m id

/-- `get_model_parents` as the iterated list. -/
def parentsList (m : Manifest) (id : String) : List String :=
  (graphRefsList m id).filter (fun r => hasPrefixStr r "model.")

/-- `get_model_parents`. -/
def get_model_parents (m : Manifest) (id : String) : Finset String :=
  (parentsList m id).toFinset

/-- `get_model_children` as the iterated list: the models whose
dependency set contains `id`. -/
def childrenList (m : Manifest) (id : String) : List String :=
  (((models m).filter (fun p => id ∈ graphRefs m p.1)).map Prod.fst).dedup

/-- `get_model_children`. -/
def get_model_children (m : Manifest) (id : String) : Finset String :=
  (childrenList m id).toFinset

/-! ### Breadth-first ancestor / descendant traversal -/

/-- `max_depth is not None and depth > max_depth`. -/
def depthExceeded (maxDepth : Option Nat) (d : Nat) : Bool :=
  match maxDepth with
  | some md => md < d
  | none => false

/-- The loop of `get_all_ancestors` / `get_all_descendants`: pop from
the front, skip visited entries, skip (without visiting) entries beyond
the depth bound, otherwise mark visited, accumulate the adjacent nodes
and enqueue them one level deeper.  The fuel bounds the loop, which in
the source terminates because every node is expanded at most once;
`bfsFuel` below is ample for any manifest. -/
def bfsLoop (adjL : String → List String) (maxDepth : Option Nat) :
    Nat → List (String × Nat) → Finset String → Finset String → Finset String
  | 0, _, _, acc => acc
  | _ + 1, [], _, acc => acc
  | fuel + 1, (cur, d) :: rest, visited, acc =>
    if cur ∈ visited then bfsLoop adjL maxDepth fuel rest visited acc
    else if depthExceeded maxDepth d then bfsLoop adjL maxDepth fuel rest visited acc
    else
      bfsLoop adjL maxDepth fuel
        (rest ++ (adjL cur).map (fun n => (n, d + 1)))
        (insert cur visited) (acc ∪ (adjL cur).toFinset)

def bfsFuel (m : Manifest) : Nat :=
  (m.length + 1) * ((m.map (fun p => p.2.depends_on.length)).sum + m.length + 2) + 1

/-- `get_all_ancestors`. -/
def get_all_ancestors (m : Manifest) (id : String) (maxDepth : Option Nat) :
    Finset String :=
  bfsLoop (parentsList m) maxDepth (bfsFuel m) [(id, 0)] ∅ ∅

/-- `get_all_descendants`. -/
def get_all_descendants (m : Manifest) (id : String) (maxDepth : Option Nat) :
    Finset String :=
  bfsLoop (childrenList m) maxDepth (bfsFuel m) [(id, 0)] ∅ ∅

/-- The nodes reachable from `root` along `adj`-edges in at most `k`
steps (`root` itself at 0 steps). -/
def reachWithin (adj : String → Finset String) : Nat → String → Finset String
  | 0, root => {root}
  | k + 1, root =>
    reachWithin adj k root ∪ (reachWithin adj k root).biUnion adj

lemma reachWithin_mono (adj : String → Finset String) (root : String) :
    ∀ {j k : Nat}, j ≤ k → reachWithin adj j root ⊆ reachWithin adj k root := by
  intro j k hjk
  induction k with
  | zero => cases Nat.le_zero.mp hjk; exact subset_rfl
  | succ n ih =>
    rcases Nat.lt_or_ge j (n + 1) with h | h
    · exact (ih (Nat.lt_succ_iff.mp h)).trans Finset.subset_union_left
    · have hj : j = n + 1 := Nat.le_antisymm hjk h
      subst hj; exact subset_rfl

lemma adj_subset_reachWithin {f : String → Finset String} {root x : String}
    {k : Nat} (hx : x ∈ reachWithin f k root) :
    f x ⊆ reachWithin f (k + 1) root := by
  intro y hy
  exact Finset.mem_union_right _ (Finset.mem_biUnion.mpr ⟨x, hx, hy⟩)

lemma bfsLoop_sound_bounded (adjL : String → List String) (md : Nat)
    (root : String) :
    ∀ (fuel : Nat) (queue : List (String × Nat)) (visited acc : Finset String),
      (∀ q ∈ queue, q.1 ∈ reachWithin (fun x => (adjL x).toFinset) q.2 root) →
      acc ⊆ reachWithin (fun x => (adjL x).toFinset) (md + 1) root →
      bfsLoop adjL (some md) fuel queue visited acc ⊆
        reachWithin (fun x => (adjL x).toFinset) (md + 1) root := by
  intro fuel
  induction fuel with
  | zero => intro queue visited acc _ hacc; exact hacc
  | succ n ih =>
    intro queue visited acc hq hacc
    match queue with
    | [] => exact hacc
    | (cur, d) :: rest =>
      simp only [bfsLoop]
      split
      · exact ih rest visited acc (fun q hq' => hq q (List.mem_cons_of_mem _ hq')) hacc
      · split
        · exact ih rest visited acc (fun q hq' => hq q (List.mem_cons_of_mem _ hq')) hacc
        · rename_i hvis hd
          have hdle : d ≤ md := by
            simp only [depthExceeded, decide_eq_true_eq] at hd
            omega
          have hcur : cur ∈ reachWithin (fun x => (adjL x).toFinset) d root :=
            hq (cur, d) (List.mem_cons_self _ _)
          have hadj : (adjL cur).toFinset ⊆
              reachWithin (fun x => (adjL x).toFinset) (md + 1) root :=
            (adj_subset_reachWithin (f := fun x => (adjL x).toFinset) hcur).trans
              (reachWithin_mono _ root (Nat.succ_le_succ hdle))
          refine ih _ _ _ ?_ ?_
          · intro q hq'
            rcases List.mem_append.mp hq' with h | h
            · exact hq q (List.mem_cons_of_mem _ h)
            · rcases List.mem_map.mp h with ⟨x, hx, rfl⟩
              exact adj_subset_reachWithin (f := fun x => (adjL x).toFinset) hcur
                (List.mem_toFinset.mpr hx)
          · exact Finset.union_subset hacc hadj

lemma bfsLoop_sound_unbounded (adjL : String → List String) (root : String) :
    ∀ (fuel : Nat) (queue : List (String × Nat)) (visited acc : Finset String),
      (∀ q ∈ queue, q.1 ∈ reachWithin (fun x => (adjL x).toFinset) q.2 root) →
      (∀ x ∈ acc, ∃ k, x ∈ reachWithin (fun x => (adjL x).toFinset) k root) →
      ∀ x ∈ bfsLoop adjL none fuel queue visited acc,
        ∃ k, x ∈ reachWithin (fun x => (adjL x).toFinset) k root := by
  intro fuel
  induction fuel with
  | zero => intro queue visited acc _ hacc; exact hacc
  | succ n ih =>
    intro queue visited acc hq hacc
    match queue with
    | [] => exact hacc
    | (cur, d) :: rest =>
      simp only [bfsLoop]
      split
      · exact ih rest visited acc (fun q hq' => hq q (List.mem_cons_of_mem _ hq')) hacc
      · split
        · exact ih rest visited acc (fun q hq' => hq q (List.mem_cons_of_mem _ hq')) hacc
        · have hcur : cur ∈ reachWithin (fun x => (adjL x).toFinset) d root :=
            hq (cur, d) (List.mem_cons_self _ _)
          refine ih _ _ _ ?_ ?_
          · intro q hq'
            rcases List.mem_append.mp hq' with h | h
            · exact hq q (List.mem_cons_of_mem _ h)
            · rcases List.mem_map.mp h with ⟨x, hx, rfl⟩
              exact adj_subset_reachWithin (f := fun x => (adjL x).toFinset) hcur
                (List.mem_toFinset.mpr hx)
          · intro x hx
            rcases Finset.mem_union.mp hx with h | h
            · exact hacc x h
            · exact ⟨d + 1, adj_subset_reachWithin
                (f := fun x => (adjL x).toFinset) hcur h⟩

/-! ### The similarity engine (`find_similar_models`)

`get_model_signature` builds, per model, the dictionary
`{refs, sources, characteristics, cte_patterns, column_refs}`; the
`characteristics` dictionary always carries the same ten keys and
`cte_patterns` only ever the three keys counted below (present exactly
when their count is nonzero), so both are embedded as records. -/

structure Characteristics where
  joins : Nat
  left_joins : Nat
  inner_joins : Nat
  group_by : Nat
  window_funcs : Nat
  ctes : Nat
  unions : Nat
  case_statements : Nat
  aggregations : Nat
  filters : Nat
deriving DecidableEq

structure CtePatterns where
  distinct_selects : Nat
  row_numbers : Nat
  partitions : Nat
deriving DecidableEq

structure ModelSignature where
  refs : Finset String
  sources : Finset String
  characteristics : Characteristics
  cte_patterns : CtePatterns
  column_refs : List (String × Finset String)
deriving DecidableEq

/-- `bool(cte_patterns)`: the defaultdict is non-empty iff some pattern
was counted at least once. -/
def patternsNonempty (p : CtePatterns) : Bool :=
  p.distinct_selects ≠ 0 || p.row_numbers ≠ 0 || p.partitions ≠ 0

/-- `get_model_signature`.  `none` models the `return None` on falsy
`raw_sql` (and the sqlparse failure on a config-only text). -/
def get_model_signature (node : ModelNode) : Option ModelSignature :=
  match node.raw_sql with
  | none => none
  | some rawsql =>
    if rawsql = "" then none
    else
      match parse_sql_components rawsql with
      | none => none
      | some comp =>
        let sqlLower := lowerStr rawsql.toList
        some
          { refs := comp.ctes.foldr (fun p acc => p.2.dependencies.toFinset ∪ acc) ∅
            sources := node.sources.toFinset
            characteristics :=
              { joins := countJoins sqlLower
                left_joins := countLeftJoins sqlLower
                inner_joins := countInnerJoins sqlLower
                group_by := countGroupBy sqlLower
                window_funcs := countWindowFuncs sqlLower
                ctes := comp.ctes.length
                unions := countUnions sqlLower
                case_statements := countCases sqlLower
                aggregations := countAggregations sqlLower
                filters := countFilters sqlLower }
            cte_patterns :=
              { distinct_selects := comp.ctes.countP
                  (fun p => "select distinct".toList <:+: lowerStr p.2.raw_sql.toList)
                row_numbers := comp.ctes.countP
                  (fun p => "row_number()".toList <:+: lowerStr p.2.raw_sql.toList)
                partitions := comp.ctes.countP
                  (fun p => "partition by".toList <:+: lowerStr p.2.raw_sql.toList) }
            column_refs := comp.column_refs.map (fun p => (p.1, p.2.toFinset)) }

/-- The rough bucket key `find_similar_models` groups signatures by:
`(len(refs), len(sources), joins > 0, group_by > 0, bool(cte_patterns))`. -/
def groupKey (s : ModelSignature) : Nat × Nat × Bool × Bool × Bool :=
  (s.refs.card, s.sources.card, 0 < s.characteristics.joins,
    0 < s.characteristics.group_by, patternsNonempty s.cte_patterns)

/-- `len(a & b) / max(len(a | b), 1)` — the ref / source similarity. -/
def setSimilarity (a b : Finset String) : ℚ :=
  ((a ∩ b).card : ℚ) / (max (a ∪ b).card 1 : ℚ)

def ref_similarity (s1 s2 : ModelSignature) : ℚ :=
  setSimilarity s1.refs s2.refs

def source_similarity (s1 s2 : ModelSignature) : ℚ :=
  setSimilarity s1.sources s2.sources

/-- The ten characteristic counts in their dictionary order. -/
def charList (c : Characteristics) : List Nat :=
  [c.joins, c.left_joins, c.inner_joins, c.group_by, c.window_funcs,
   c.ctes, c.unions, c.case_statements, c.aggregations, c.filters]

/-- `sum(1 for k, v in sig1.characteristics.items() if
sig2.characteristics.get(k) == v)`. -/
def charMatches (c1 c2 : Characteristics) : Nat :=
  ((charList c1).zip (charList c2)).countP (fun p => p.1 = p.2)

def char_similarity (s1 s2 : ModelSignature) : ℚ :=
  (charMatches s1.characteristics s2.characteristics : ℚ) / 10

/-- A pattern count as the dictionary stores it: absent when zero. -/
def optCount (n : Nat) : Option Nat := if n = 0 then none else some n

def patternList (p : CtePatterns) : List Nat :=
  [p.distinct_selects, p.row_numbers, p.partitions]

/-- `len(pattern_keys)`: the union of the keys present on either side. -/
def patternSlotKeys (p1 p2 : CtePatterns) : Nat :=
  ((patternList p1).zip (patternList p2)).countP
    (fun q => ¬ (q.1 = 0 ∧ q.2 = 0))

/-- The keys (in the union) on which both sides' `.get` agree. -/
def patternSlotMatches (p1 p2 : CtePatterns) : Nat :=
  ((patternList p1).zip (patternList p2)).countP
    (fun q => ¬ (q.1 = 0 ∧ q.2 = 0) ∧ optCount q.1 = optCount q.2)

def pattern_similarity (s1 s2 : ModelSignature) : ℚ :=
  if patternSlotKeys s1.cte_patterns s2.cte_patterns = 0 then 1
  else (patternSlotMatches s1.cte_patterns s2.cte_patterns : ℚ) /
    (patternSlotKeys s1.cte_patterns s2.cte_patterns : ℚ)

/-- Union of all column sets of an association list. -/
def colUnion (l : List (String × Finset String)) : Finset String :=
  l.foldr (fun p acc => p.2 ∪ acc) ∅

/-- `all_cols`: every column on either side. -/
def allColsOf (s1 s2 : ModelSignature) : Finset String :=
  colUnion s1.column_refs ∪ colUnion s2.column_refs

/-- `shared_cols`: for each CTE of `sig1` also present in `sig2`, the
intersection of their column sets. -/
def sharedColsOf (s1 s2 : ModelSignature) : Finset String :=
  s1.column_refs.foldr
    (fun p acc => (p.2 ∩ ((s2.column_refs.lookup p.1).getD ∅)) ∪ acc) ∅

def col_similarity (s1 s2 : ModelSignature) : ℚ :=
  if allColsOf s1 s2 = ∅ then 0
  else ((sharedColsOf s1 s2).card : ℚ) / ((allColsOf s1 s2).card : ℚ)

/-- The weights of `calculate_similarity`. -/
def simWeightRef : ℚ := 0.25
def simWeightSource : ℚ := 0.15
def simWeightChar : ℚ := 0.25
def simWeightPattern : ℚ := 0.15
def simWeightColumn : ℚ := 0.20

/-- `calculate_similarity`: the falsy-signature guard returns `0.0`,
otherwise the weighted sum of the five component similarities. -/
def calculate_similarity : Option ModelSignature → Option ModelSignature → ℚ
  | some s1, some s2 =>
    ref_similarity s1 s2 * simWeightRef +
    source_similarity s1 s2 * simWeightSource +
    char_similarity s1 s2 * simWeightChar +
    pattern_similarity s1 s2 * simWeightPattern +
    col_similarity s1 s2 * simWeightColumn
  | _, _ => 0

/-! ### Symmetry and bounds of the similarity components -/

lemma setSimilarity_comm (a b : Finset String) :
    setSimilarity a b = setSimilarity b a := by
  unfold setSimilarity
  rw [Finset.inter_comm, Finset.union_comm]

lemma charMatches_comm (c1 c2 : Characteristics) :
    charMatches c1 c2 = charMatches c2 c1 := by
  unfold charMatches
  rw [← List.zip_swap (charList c2) (charList c1), List.countP_map]
  refine List.countP_congr ?_
  intro p _
  simp [Function.comp, Prod.swap, eq_comm]

lemma patternSlotKeys_comm (p1 p2 : CtePatterns) :
    patternSlotKeys p1 p2 = patternSlotKeys p2 p1 := by
  unfold patternSlotKeys
  rw [← List.zip_swap (patternList p2) (patternList p1), List.countP_map]
  refine List.countP_congr ?_
  intro q _
  simp [Function.comp, Prod.swap, and_comm]

lemma patternSlotMatches_comm (p1 p2 : CtePatterns) :
    patternSlotMatches p1 p2 = patternSlotMatches p2 p1 := by
  unfold patternSlotMatches
  rw [← List.zip_swap (patternList p2) (patternList p1), List.countP_map]
  refine List.countP_congr ?_
  intro q _
  simp only [Function.comp, Prod.swap, Prod.fst_swap, Prod.snd_swap,
    decide_eq_true_eq]
  constructor
  · rintro ⟨hne, heq⟩
    exact ⟨fun hc => hne ⟨hc.2, hc.1⟩, heq.symm⟩
  · rintro ⟨hne, heq⟩
    exact ⟨fun hc => hne ⟨hc.2, hc.1⟩, heq.symm⟩

lemma mem_colUnion {l : List (String × Finset String)} {x : String} :
    x ∈ colUnion l ↔ ∃ p ∈ l, x ∈ p.2 := by
  induction l with
  | nil => simp [colUnion]
  | cons p t ih =>
    simp only [colUnion, List.foldr_cons, Finset.mem_union]
    rw [show t.foldr (fun p acc => p.2 ∪ acc) ∅ = colUnion t from rfl]
    simp [ih]

lemma mem_sharedFold {l1 l2 : List (String × Finset String)} {x : String} :
    x ∈ l1.foldr (fun p acc => (p.2 ∩ ((l2.lookup p.1).getD ∅)) ∪ acc) ∅ ↔
      ∃ p ∈ l1, x ∈ p.2 ∧ x ∈ (l2.lookup p.1).getD ∅ := by
  induction l1 with
  | nil => simp
  | cons p t ih =>
    simp only [List.foldr_cons, Finset.mem_union, Finset.mem_inter, ih]
    simp

lemma lookup_eq_some_of_mem_nodup {l : List (String × Finset String)}
    (hnd : (l.map Prod.fst).Nodup) {k : String} {v : Finset String}
    (h : (k, v) ∈ l) : l.lookup k = some v := by
  rcases List.append_of_mem h with ⟨l1, l2, rfl⟩
  refine List.lookup_eq_some_iff.mpr ⟨l1, l2, rfl, ?_⟩
  intro p hp
  rw [List.map_append, List.map_cons] at hnd
  have hdisj := (List.nodup_append.mp hnd).2.2
  have hk : k ∉ l1.map Prod.fst := fun hkin =>
    hdisj hkin (List.mem_cons_self _ _)
  have : k ≠ p.1 := fun hkp =>
    hk (hkp ▸ List.mem_map.mpr ⟨p, hp, rfl⟩)
  simpa using this

lemma mem_of_lookup_eq_some {l : List (String × Finset String)} {k : String}
    {v : Finset String} (h : l.lookup k = some v) : (k, v) ∈ l := by
  rcases List.lookup_eq_some_iff.mp h with ⟨l1, l2, rfl, -⟩
  exact List.mem_append_right _ (List.mem_cons_self _ _)

lemma sharedFold_swap_subset {l1 l2 : List (String × Finset String)}
    (h1 : (l1.map Prod.fst).Nodup) {x : String}
    (hx : x ∈ l1.foldr (fun p acc => (p.2 ∩ ((l2.lookup p.1).getD ∅)) ∪ acc) ∅) :
    x ∈ l2.foldr (fun p acc => (p.2 ∩ ((l1.lookup p.1).getD ∅)) ∪ acc) ∅ := by
  rcases mem_sharedFold.mp hx with ⟨p, hmem, hxv, hxw⟩
  rcases hlk : l2.lookup p.1 with _ | w
  · rw [hlk] at hxw; cases hxw
  · rw [hlk] at hxw
    simp only [Option.getD_some] at hxw
    refine mem_sharedFold.mpr ⟨(p.1, w), mem_of_lookup_eq_some hlk, hxw, ?_⟩
    rw [lookup_eq_some_of_mem_nodup h1 (show (p.1, p.2) ∈ l1 from hmem)]
    simpa using hxv

lemma sharedColsOf_comm {s1 s2 : ModelSignature}
    (h1 : (s1.column_refs.map Prod.fst).Nodup)
    (h2 : (s2.column_refs.map Prod.fst).Nodup) :
    sharedColsOf s1 s2 = sharedColsOf s2 s1 := by
  unfold sharedColsOf
  ext x
  constructor
  · exact sharedFold_swap_subset h1
  · exact sharedFold_swap_subset h2

lemma col_similarity_comm {s1 s2 : ModelSignature}
    (h1 : (s1.column_refs.map Prod.fst).Nodup)
    (h2 : (s2.column_refs.map Prod.fst).Nodup) :
    col_similarity s1 s2 = col_similarity s2 s1 := by
  unfold col_similarity allColsOf
  rw [Finset.union_comm, sharedColsOf_comm h1 h2]

lemma calculate_similarity_some (s1 s2 : ModelSignature) :
    calculate_similarity (some s1) (some s2) =
      ref_similarity s1 s2 * simWeightRef +
      source_similarity s1 s2 * simWeightSource +
      char_similarity s1 s2 * simWeightChar +
      pattern_similarity s1 s2 * simWeightPattern +
      col_similarity s1 s2 * simWeightColumn := rfl

/-- Symmetry of the full score, under the invariant (true of every
Python dict) that neither signature's `column_refs` repeats a key. -/
lemma calculate_similarity_comm {s1 s2 : ModelSignature}
    (h1 : (s1.column_refs.map Prod.fst).Nodup)
    (h2 : (s2.column_refs.map Prod.fst).Nodup) :
    calculate_similarity (some s1) (some s2) =
      calculate_similarity (some s2) (some s1) := by
  rw [calculate_similarity_some, calculate_similarity_some]
  unfold ref_similarity source_similarity char_similarity pattern_similarity
  rw [setSimilarity_comm, setSimilarity_comm s1.sources,
    charMatches_comm, patternSlotKeys_comm, patternSlotMatches_comm,
    col_similarity_comm h1 h2]

lemma setSimilarity_nonneg (a b : Finset String) : 0 ≤ setSimilarity a b := by
  unfold setSimilarity
  positivity

lemma setSimilarity_le_one (a b : Finset String) : setSimilarity a b ≤ 1 := by
  unfold setSimilarity
  rw [div_le_one (by positivity)]
  have h1 : (a ∩ b).card ≤ (a ∪ b).card :=
    Finset.card_le_card ((Finset.inter_subset_left).trans Finset.subset_union_left)
  have h2 : (a ∪ b).card ≤ max (a ∪ b).card 1 := le_max_left _ _
  exact_mod_cast h1.trans h2

lemma char_similarity_nonneg (s1 s2 : ModelSignature) :
    0 ≤ char_similarity s1 s2 := by
  unfold char_similarity; positivity

lemma char_similarity_le_one (s1 s2 : ModelSignature) :
    char_similarity s1 s2 ≤ 1 := by
  unfold char_similarity
  rw [div_le_one (by norm_num)]
  have h : charMatches s1.characteristics s2.characteristics ≤ 10 := by
    have h1 := List.countP_le_length
      (p := fun p : Nat × Nat => decide (p.1 = p.2))
      (l := (charList s1.characteristics).zip (charList s2.characteristics))
    simpa [charList] using h1
  exact_mod_cast h

lemma pattern_similarity_nonneg (s1 s2 : ModelSignature) :
    0 ≤ pattern_similarity s1 s2 := by
  unfold pattern_similarity
  split
  · norm_num
  · positivity

lemma pattern_similarity_le_one (s1 s2 : ModelSignature) :
    pattern_similarity s1 s2 ≤ 1 := by
  unfold pattern_similarity
  split
  · norm_num
  · rename_i hk
    rw [div_le_one (by positivity)]
    have h : patternSlotMatches s1.cte_patterns s2.cte_patterns ≤
        patternSlotKeys s1.cte_patterns s2.cte_patterns := by
      unfold patternSlotMatches patternSlotKeys
      refine List.countP_mono_left ?_
      intro q _ hq
      simp only [decide_eq_true_eq] at hq ⊢
      exact hq.1
    exact_mod_cast h
  -- the `positivity` above needs the key count to be nonzero, provided by hk

lemma col_similarity_nonneg (s1 s2 : ModelSignature) :
    0 ≤ col_similarity s1 s2 := by
  unfold col_similarity
  split
  · norm_num
  · positivity

lemma col_similarity_le_one (s1 s2 : ModelSignature) :
    col_similarity s1 s2 ≤ 1 := by
  unfold col_similarity
  split
  · norm_num
  · rename_i hne
    rw [div_le_one ?_]
    · have h : sharedColsOf s1 s2 ⊆ allColsOf s1 s2 := by
        intro x hx
        rcases mem_sharedFold.mp hx with ⟨p, hmem, hxv, -⟩
        exact Finset.mem_union_left _ (mem_colUnion.mpr ⟨p, hmem, hxv⟩)
      exact_mod_cast Finset.card_le_card h
    · have h : 0 < (allColsOf s1 s2).card := Finset.card_pos.mpr
        (Finset.nonempty_iff_ne_empty.mpr hne)
      exact_mod_cast h

/-- The five weights sum to one. -/
lemma simWeights_sum :
    simWeightRef + simWeightSource + simWeightChar + simWeightPattern +
      simWeightColumn = 1 := by
  norm_num [simWeightRef, simWeightSource, simWeightChar, simWeightPattern,
    simWeightColumn]

lemma calculate_similarity_mem_unitInterval (s1 s2 : ModelSignature) :
    0 ≤ calculate_similarity (some s1) (some s2) ∧
      calculate_similarity (some s1) (some s2) ≤ 1 := by
  have hr := setSimilarity_nonneg s1.refs s2.refs
  have hr1 := setSimilarity_le_one s1.refs s2.refs
  have hs := setSimilarity_nonneg s1.sources s2.sources
  have hs1 := setSimilarity_le_one s1.sources s2.sources
  have hc := char_similarity_nonneg s1 s2
  have hc1 := char_similarity_le_one s1 s2
  have hp := pattern_similarity_nonneg s1 s2
  have hp1 := pattern_similarity_le_one s1 s2
  have hl := col_similarity_nonneg s1 s2
  have hl1 := col_similarity_le_one s1 s2
  rw [calculate_similarity_some]
  unfold ref_similarity source_similarity at *
  unfold simWeightRef simWeightSource simWeightChar simWeightPattern simWeightColumn
  constructor
  · nlinarith
  · nlinarith

/-! ### Complexity scoring

`_calculate_complexity_score` counts keywords over the lower-cased main
query, weighs them, scales by 5 and caps at 100;
`get_model_complexity_metrics` builds one row per model with non-empty
`raw_sql` (empty-SQL models are silently skipped); the complex-model
filter of `generate_refactoring_report` selects rows by four
trip-wires. -/

def calculate_complexity_score (comp : SQLComponent) : ℚ :=
  let sqlLower := lowerStr comp.main_query.toList
  let score : ℚ :=
    (comp.ctes.length : ℚ) * 1.0 +
    (countJoins sqlLower : ℚ) * 1.5 +
    (countWindowFuncs sqlLower : ℚ) * 2.0 +
    (countAggregations sqlLower : ℚ) * 1.0 +
    (countCases sqlLower : ℚ) * 0.5 +
    ((comp.ctes.foldr (fun (p : String × CTEReference) acc =>
      p.2.dependencies.toFinset ∪ acc) ∅).card : ℚ) * 1.0 +
    (countFilters sqlLower : ℚ) * 0.5
  min 100 (score * 5)

structure MetricsRow where
  model : String
  num_joins : Nat
  num_ctes : Nat
  num_refs : Nat
  num_sources : Nat
  num_children : Nat
  num_parents : Nat
  sql_length : Nat
  num_window_funcs : Nat
  num_aggregations : Nat
  num_case_statements : Nat
  complexity_score : ℚ
deriving DecidableEq

/-- One metrics row for a model (the caller has checked `sql` truthy).
`none` models the sqlparse failure aborting the run. -/
def metricsRowOf (m : Manifest) (id : String) (node : ModelNode)
    (sql : String) : Option MetricsRow :=
  match parse_sql_components sql with
  | none => none
  | some comp =>
    some { model := id
           num_joins := countJoins (lowerStr sql.toList)
           num_ctes := comp.ctes.length
           num_refs := node.refs.length
           num_sources := node.sources.length
           num_children := (get_model_children m id).card
           num_parents := (get_model_parents m id).card
           sql_length := sql.toList.length
           num_window_funcs := countWindowFuncs (lowerStr sql.toList)
           num_aggregations := countAggregations (lowerStr sql.toList)
           num_case_statements := countCases (lowerStr sql.toList)
           complexity_score := calculate_complexity_score comp }

/-- `get_model_complexity_metrics`: one row per model with non-empty
`raw_sql`, in manifest order; `none` when a parse raises. -/
def get_model_complexity_metrics (m : Manifest) : Option (List MetricsRow) :=
  (models m).foldr
    (fun p acc =>
      match acc with
      | none => none
      | some rows =>
        let sql := p.2.raw_sql.getD ""
        if sql = "" then some rows
        else
          match metricsRowOf m p.1 p.2 sql with
          | none => none
          | some row => some (row :: rows))
    (some [])

/-- The row filter of `generate_refactoring_report`:
`(complexity_score > 70) | (num_joins > 5) | (num_refs > 5) |
(sql_length > 1000)`. -/
def isComplexRow (row : MetricsRow) : Bool :=
  row.complexity_score > 70 || row.num_joins > 5 || row.num_refs > 5 ||
    row.sql_length > 1000

def complex_models (rows : List MetricsRow) : List MetricsRow :=
  rows.filter isComplexRow

/-! ### CTE dependency closure and column lineage -/

/-- Python set union on deduplicated lists (left-biased order). -/
def unionListStr (a b : List String) : List String :=
  a ++ b.filter (fun x => ¬ a.contains x)

/-- `get_all_deps` of `analyze_cte_dependencies`: transitive closure with
a visiting guard.  The source's shared `seen` set and `all_deps` memo can
make corner cases insertion-order dependent; the embedding takes the
pure recursive reading, which agrees on the acyclic CTE graphs the
analyzer encounters. -/
def allDepsAux (direct : List (String × List String)) :
    Nat → String → List String → List String
  | 0, _, _ => []
  | fuel + 1, cte, seen =>
    if seen.contains cte then []
    else
      let dd := (direct.lookup cte).getD []
      dd.foldl (fun acc dep =>
        unionListStr acc (allDepsAux direct fuel dep (cte :: seen))) dd

def analyze_cte_dependencies (comp : SQLComponent) :
    List (String × List String) :=
  let direct := comp.ctes.map (fun p => (p.1, p.2.dependencies))
  direct.map (fun p => (p.1, allDepsAux direct (direct.length + 1) p.1 []))

/-- `defaultdict(set)` update: merge into an existing key or append. -/
def upsertMerge (k : String) (v : List String) :
    List (String × List String) → List (String × List String)
  | [] => [(k, v)]
  | (k', v') :: rest =>
    if k' = k then (k', unionListStr v' v) :: rest
    else (k', v') :: upsertMerge k v rest

/-- `analyze_column_lineage`.  In this embedding `columns_used` and every
`column_refs` set are empty (flattened sqlparse leaves always carry a
concrete ttype), so the lineage is empty; the definition nevertheless
mirrors the source's two accumulation loops. -/
def analyze_column_lineage (comp : SQLComponent) :
    List (String × List String) :=
  let cte_deps := analyze_cte_dependencies comp
  comp.ctes.foldl
    (fun acc (p : String × CTEReference) =>
      let acc1 := p.2.columns_used.foldl
        (fun a col => upsertMerge (p.1 ++ "." ++ col) [col] a) acc
      ((cte_deps.lookup p.1).getD []).foldl
        (fun a dep =>
          match comp.column_refs.lookup dep with
          | none => a
          | some cols => cols.foldl
              (fun a2 col => upsertMerge (p.1 ++ "." ++ col) [dep ++ "." ++ col] a2) a)
        acc1)
    []

/-- Python `str` of a set of strings, with the elements in accumulation
order standing in for Python's unspecified set iteration order (the
predicate below is only ever applied to empty collections, where the
choice is irrelevant). -/
def setRepr (s : List String) : String :=
  String.mk [openBrace] ++
    String.intercalate ", " (s.map (fun e => "'" ++ e ++ "'")) ++
    String.mk [closeBrace]

def containsSubstr (needle hay : String) : Bool :=
  needle.toList <:+: hay.toList

/-- `analyze_ref_necessity`.  (When the lineage is non-empty the Python
original would raise a `TypeError` building a set of sets; here the
collections are lists, and the lineage is empty in any case.) -/
def analyze_ref_necessity (mnfst : Manifest)
    (model_id direct_ref indirect_ref : String) : Bool :=
  match lookupModel mnfst model_id with
  | none => true
  | some node =>
    match parse_sql_components (node.raw_sql.getD "") with
    | none => true
    | some comp =>
      let lineage := analyze_column_lineage comp
      let grandparent_cols := (lineage.map Prod.snd).filter
        (fun col => containsSubstr indirect_ref (setRepr col))
      let parent_cols := (lineage.map Prod.snd).filter
        (fun col => containsSubstr direct_ref (setRepr col))
      grandparent_cols.all (fun c => parent_cols.contains c)

/-! ### The redundant-reference detector -/

structure RedundantRef where
  model : String
  parent : String
  grandparent : String
  suggestion : String
deriving DecidableEq

def redundantSuggestion (model_id parent_ref grandparent : String) : String :=
  "Model '" ++ model_id ++ "' references both '" ++ parent_ref ++ "' and '" ++
    grandparent ++ "', but '" ++ parent_ref ++ "' already includes '" ++
    grandparent ++ "'. Consider removing the reference to '" ++ grandparent ++
    "' and getting those columns through '" ++ parent_ref ++ "' instead."

/-- `find_redundant_refs`, with the necessity check abstracted as the
Boolean parameter `necess` (instantiate with `analyze_ref_necessity`):
the properties proved below hold for every predicate, hence in
particular for the source's check, whose value on non-trivial lineage
additionally depends on Python set iteration order.  Set iterations are
taken in sorted order. -/
def find_redundant_refs (necess : String → String → String → Bool)
    (m : Manifest) : List RedundantRef :=
  (models m).flatMap (fun p =>
    (graphRefsList m p.1).flatMap (fun parent_ref =>
      if (lookupModel m parent_ref).isSome then
        ((graphRefsList m p.1).filter
            (fun gp => gp ∈ get_model_refs m parent_ref)).filterMap
          (fun gp =>
            if necess p.1 parent_ref gp then
              some { model := p.1, parent := parent_ref, grandparent := gp,
                     suggestion := redundantSuggestion p.1 parent_ref gp }
            else none)
      else []))

/-! ### The SQL refactoring generator (`generate_refactored_sql`) -/

/-- If `pat` is a case-insensitive prefix of `s`, the rest of `s`. -/
def ciPrefixDrop (pat s : List Char) : Option (List Char) :=
  if lowerStr (s.take pat.length) = lowerStr pat ∧ pat.length ≤ s.length then
    some (s.drop pat.length)
  else none

/-- `re.sub(rf'\b{name}\b', repl, s, flags=re.IGNORECASE)`. -/
def replaceWordCIAux (pat repl : List Char) : Nat → Option Char → List Char → List Char
  | 0, _, s => s
  | _ + 1, _, [] => []
  | fuel + 1, prev, c :: rest =>
    match (if optWord prev then none else ciPrefixDrop pat (c :: rest)) with
    | some tail =>
      if ¬ optWord tail.head? then
        repl ++ replaceWordCIAux pat repl fuel pat.getLast? tail
      else
        c :: replaceWordCIAux pat repl fuel (some c) rest
    | none => c :: replaceWordCIAux pat repl fuel (some c) rest

def replaceWordCI (pat repl s : String) : String :=
  String.mk (replaceWordCIAux pat.toList repl.toList (s.toList.length + 1) none s.toList)

/-- `re.sub(pat, repl, s, count=1, flags=re.IGNORECASE)` with a plain
(boundary-free) pattern. -/
def replaceFirstCIAux (pat repl : List Char) : Nat → List Char → List Char
  | 0, s => s
  | _ + 1, [] => []
  | fuel + 1, c :: rest =>
    match ciPrefixDrop pat (c :: rest) with
    | some tail => repl ++ tail
    | none => c :: replaceFirstCIAux pat repl fuel rest

def replaceFirstCI (pat repl s : String) : String :=
  String.mk (replaceFirstCIAux pat.toList repl.toList (s.toList.length + 1) s.toList)

/-- `pat in s.lower()` for an already-lowercase `pat`. -/
def containsCI (pat s : String) : Bool :=
  pat.toList <:+: lowerStr s.toList

structure RefactorResult where
  original_sql : String
  refactored_sql : String
  changes_made : List String
  model_name : String
  removed_ref : String
  use_parent : String
  removed_ctes : List String
deriving DecidableEq

/-- `unique_id.split('.')[-1]`. -/
def lastSegment (s : String) : String := (s.splitOn ".").getLastD s

/-- The source's scan over `['raw_code', 'raw_sql', 'compiled_code',
'compiled_sql', 'sql']` for the first present, truthy field. -/
def firstSqlField (node : ModelNode) : Option String :=
  let pick : Option String → Option String := fun o =>
    match o with
    | some s => if s = "" then none else some s
    | none => none
  (pick node.raw_code).orElse fun _ =>
    (pick node.raw_sql).orElse fun _ =>
      (pick node.compiled_code).orElse fun _ =>
        (pick node.compiled_sql).orElse fun _ => pick node.sql

/-- `should_remove_cte`, with `removed` the CTEs already marked for
removal when the check runs. -/
def should_remove_cte (gp_name : String) (deps : List (String × List String))
    (removed : List String) (cte_name : String) (cte : CTEReference) : Bool :=
  if ¬ cte.dependencies.contains gp_name then false
  else if ¬ cte.is_constant ∧ cte.filters.length < cte.columns_used.length then false
  else
    ((deps.filter (fun q => q.2.contains cte_name)).map Prod.fst).all
      (fun nm => removed.contains nm)

/-- `process_cte_filters`: rewrite references to removed CTEs inside each
filter string (removed names taken in removal order). -/
def process_cte_filters (removed : List String) (p_name : String)
    (cte : CTEReference) : List String :=
  cte.filters.map (fun f =>
    removed.foldl
      (fun acc rc => replaceWordCI rc ("ref('" ++ p_name ++ "')") acc) f)

/-- The first pass of the generator: (removed CTEs in removal order,
merged filters, change log). -/
def generatorFirstPass (gp_name p_name : String)
    (deps : List (String × List String)) (ctes : List (String × CTEReference)) :
    List String × List String × List String :=
  ctes.foldl
    (fun st p =>
      if should_remove_cte gp_name deps st.1 p.1 p.2 then
        let removed := st.1 ++ [p.1]
        let changes := st.2.2 ++ ["Removing CTE: " ++ p.1]
        let merged :=
          if p.2.filters ≠ [] then st.2.1 ++ process_cte_filters removed p_name p.2
          else st.2.1
        (removed, merged, changes)
      else st)
    ([], [], [])

/-- The second pass: processed CTE texts and the extended change log. -/
def generatorSecondPass (p_name : String) (removed : List String)
    (ctes : List (String × CTEReference)) (changes0 : List String) :
    List String × List String :=
  ctes.foldl
    (fun st p =>
      if removed.contains p.1 then st
      else
        let modified := removed.foldl
          (fun acc rc => replaceWordCI rc ("ref('" ++ p_name ++ "')") acc)
          p.2.raw_sql
        let changes :=
          if p.2.filters ≠ [] ∧ process_cte_filters removed p_name p.2 ≠ p.2.filters
          then st.2 ++ ["Modified filters in CTE: " ++ p.1]
          else st.2
        let pre := if st.1 = [] then "with " else ","
        (st.1 ++ [pre ++ " " ++ p.1 ++ " as (" ++ modified ++ ")"], changes))
    ([], changes0)

/-- Main-query rewriting: replace removed CTE references, then merge the
collected filters into the WHERE clause. -/
def generatorMainQuery (p_name : String) (removed : List String)
    (merged : List String) (mq : String) : String :=
  let mq1 := removed.foldl
    (fun acc rc => replaceWordCI rc ("ref('" ++ p_name ++ "')") acc) mq
  if merged ≠ [] then
    if containsCI "where" mq1 then
      merged.foldl
        (fun acc f => replaceFirstCI "where" ("where " ++ f ++ " and") acc) mq1
    else
      mq1 ++ "\nwhere " ++ String.intercalate " and " merged
  else mq1

/-- `generate_refactored_sql`.  `none` models both the source's explicit
`return None` cases and a parse failure.  (The source also computes the
column lineage here without using it.) -/
def generate_refactored_sql (mnfst : Manifest) (finding : RedundantRef) :
    Option RefactorResult :=
  match lookupModel mnfst finding.model, lookupModel mnfst finding.parent,
      lookupModel mnfst finding.grandparent with
  | some node, some parentNode, some gpNode =>
    match firstSqlField node with
    | none => none
    | some original_sql =>
      match parse_sql_components original_sql with
      | none => none
      | some comp =>
        let deps := analyze_cte_dependencies comp
        let gp_name := gpNode.name.getD (lastSegment finding.grandparent)
        let p_name := parentNode.name.getD (lastSegment finding.parent)
        let fp := generatorFirstPass gp_name p_name deps comp.ctes
        let sp := generatorSecondPass p_name fp.1 comp.ctes fp.2.2
        let mq := generatorMainQuery p_name fp.1 fp.2.1 comp.main_query
        let configPart : List String :=
          match comp.config with
          | some cfg => [cfg, ""]
          | none => []
        let parts := configPart ++
          ["-- Refactored to remove redundant reference to " ++ gp_name,
           "-- These columns are now accessed through " ++ p_name, ""] ++
          sp.1 ++ [mq]
        some { original_sql := original_sql
               refactored_sql := String.intercalate "\n" parts
               changes_made := sp.2
               model_name := node.name.getD (lastSegment finding.model)
               removed_ref := gp_name
               use_parent := p_name
               removed_ctes := fp.1 }
  | _, _, _ => none

/-! ### Concrete manifests used by the claim witnesses and counterexamples -/

/-- A model node with every optional field absent. -/
def emptyNode : ModelNode :=
  { resource_type := "model", depends_on := [], name := none, raw_sql := none,
    raw_code := none, compiled_code := none, compiled_sql := none, sql := none,
    refs := [], sources := [] }

def stgNode : ModelNode :=
  { emptyNode with name := some "stg_customers", raw_sql := some "select 1" }

def intNode : ModelNode :=
  { emptyNode with
    name := some "int_orders"
    depends_on := ["model.proj.stg_customers"]
    raw_sql := some "select cid from ref('stg_customers')" }

def fctSql : String :=
  "select id, total from ref('stg_customers') join ref('int_orders') on id = cid"

def fctNode : ModelNode :=
  { emptyNode with
    name := some "fct_orders"
    depends_on := ["model.proj.int_orders", "model.proj.stg_customers"]
    raw_sql := some fctSql }

/-- A three-model project in which `fct_orders` references both its
parent `int_orders` and its grandparent `stg_customers`. -/
def demoManifest : Manifest :=
  [("model.proj.fct_orders", fctNode), ("model.proj.int_orders", intNode),
   ("model.proj.stg_customers", stgNode)]

/-- The one redundant-reference finding the detector emits on
`demoManifest`. -/
def demoFinding : RedundantRef :=
  { model := "model.proj.fct_orders", parent := "model.proj.int_orders",
    grandparent := "model.proj.stg_customers",
    suggestion := redundantSuggestion "model.proj.fct_orders"
      "model.proj.int_orders" "model.proj.stg_customers" }

def cNode : ModelNode := { emptyNode with name := some "c" }

def bNode : ModelNode :=
  { emptyNode with name := some "b", depends_on := ["model.p.c"] }

def aNode : ModelNode :=
  { emptyNode with name := some "a", depends_on := ["model.p.b"] }

/-- A three-model chain `a → b → c` (each depending on the next). -/
def chainManifest : Manifest :=
  [("model.p.a", aNode), ("model.p.b", bNode), ("model.p.c", cNode)]

/-- A model whose `refs` list has six entries while its SQL is trivial:
no spec trip-wire fires on it, only the reference-count one. -/
def c3Node : ModelNode :=
  { emptyNode with
    name := some "six_refs"
    refs := ["r1", "r2", "r3", "r4", "r5", "r6"]
    raw_sql := some "select 1" }

def c3Manifest : Manifest := [("model.p.six_refs", c3Node)]

/-- The metrics row the analyzer computes for `c3Node`. -/
def c3Row : MetricsRow :=
  { model := "model.p.six_refs", num_joins := 0, num_ctes := 0, num_refs := 6,
    num_sources := 0, num_children := 0, num_parents := 0, sql_length := 8,
    num_window_funcs := 0, num_aggregations := 0, num_case_statements := 0,
    complexity_score := 0 }

/-- What `parse_sql_components` returns on the SELECT-free text
`"foobar"`. -/
def c4Comp : SQLComponent :=
  { config := none, ctes := [], main_query := "", column_refs := [] }

def c4Node : ModelNode :=
  { emptyNode with name := some "nosel", raw_sql := some "foobar" }

def c4Manifest : Manifest := [("model.p.nosel", c4Node)]

/-- The metrics row the analyzer computes for `c4Node`: an ordinary row
(its true `sql_length`), with no parse-failure flag anywhere. -/
def c4Row : MetricsRow :=
  { model := "model.p.nosel", num_joins := 0, num_ctes := 0, num_refs := 0,
    num_sources := 0, num_children := 0, num_parents := 0, sql_length := 6,
    num_window_funcs := 0, num_aggregations := 0, num_case_statements := 0,
    complexity_score := 0 }

/-- Two signatures in the same similarity bucket whose weighted score
separates the source's five-component formula from the specified
four-component one. -/
def sigA : ModelSignature :=
  { refs := {"model.p.m1"}, sources := {"s1"},
    characteristics :=
      { joins := 2, left_joins := 0, inner_joins := 0, group_by := 1,
        window_funcs := 1, ctes := 1, unions := 1, case_statements := 0,
        aggregations := 0, filters := 0 },
    cte_patterns := { distinct_selects := 0, row_numbers := 1, partitions := 0 },
    column_refs := [("c1", ∅)] }

def sigB : ModelSignature :=
  { refs := {"model.p.m1"}, sources := {"s1"},
    characteristics :=
      { joins := 2, left_joins := 1, inner_joins := 1, group_by := 1,
        window_funcs := 1, ctes := 1, unions := 1, case_statements := 1,
        aggregations := 1, filters := 1 },
    cte_patterns := { distinct_selects := 0, row_numbers := 0, partitions := 1 },
    column_refs := [("c2", ∅)] }

/-! ### Definitions modelled from the specification's wording

The two definitions below do NOT embed source code: they transcribe the
similarity formula as the specification states it, to be compared
against `calculate_similarity` above. -/

/-- Modelled from the specification's wording: the
"matching-structural-feature ratio" over the five features the spec
names (join / group-by / window / CTE / union counts equal). -/
def specStructuralRatio (c1 c2 : Characteristics) : ℚ :=
  (((if c1.joins = c2.joins then 1 else 0) +
    (if c1.group_by = c2.group_by then 1 else 0) +
    (if c1.window_funcs = c2.window_funcs then 1 else 0) +
    (if c1.ctes = c2.ctes then 1 else 0) +
    (if c1.unions = c2.unions then 1 else 0) : ℚ)) / 5

/-- Modelled from the specification's wording: the claimed
four-component weighted score, `textual` standing for the textual
similarity of the two normalized SQL bodies (any value in `[0, 1]`). -/
def specSimilarity (textual : ℚ) (s1 s2 : ModelSignature) : ℚ :=
  textual * 0.4 + setSimilarity s1.refs s2.refs * 0.3 +
    setSimilarity s1.sources s2.sources * 0.2 +
    specStructuralRatio s1.characteristics s2.characteristics * 0.1

/-! ### Dependency-graph helper lemmas -/

/-- Every entry of the dependency graph's adjacency list carries the
`"model."` prefix. -/
lemma mem_graphRefsList_model {m : Manifest} {id x : String}
    (h : x ∈ graphRefsList m id) : hasPrefixStr x "model." = true := by
  unfold graphRefsList at h
  rcases hlk : lookupModel m id with _ | node <;> rw [hlk] at h
  · cases h
  · rw [List.mem_dedup, List.mem_filter] at h
    exact h.2

/-- `get_model_parents` filters the adjacency list by a predicate every
entry already satisfies. -/
lemma parentsList_eq_graphRefsList (m : Manifest) (id : String) :
    parentsList m id = graphRefsList m id := by
  unfold parentsList
  exact List.filter_eq_self.mpr (fun x hx => mem_graphRefsList_model hx)

/-- A successful association-list lookup exhibits a member pair. -/
lemma pair_mem_of_lookup {α : Type} {l : List (String × α)} {k : String}
    {v : α} (h : l.lookup k = some v) : (k, v) ∈ l := by
  rcases List.lookup_eq_some_iff.mp h with ⟨l1, l2, rfl, -⟩
  exact List.mem_append_right _ (List.mem_cons_self _ _)

/-! ### The claims -/

/-- C1 (corrected).  The similarity score is the weighted sum of FIVE
components — reference, source, characteristics, CTE-pattern and column
similarity — with weights 0.25 / 0.15 / 0.25 / 0.15 / 0.20 (not the
specified four components weighted 0.4 / 0.3 / 0.2 / 0.1); the weights
do sum to 1. -/
theorem C1_similarity_weighted_sum (s1 s2 : ModelSignature) :
    calculate_similarity (some s1) (some s2) =
      ref_similarity s1 s2 * simWeightRef +
      source_similarity s1 s2 * simWeightSource +
      char_similarity s1 s2 * simWeightChar +
      pattern_similarity s1 s2 * simWeightPattern +
      col_similarity s1 s2 * simWeightColumn ∧
    simWeightRef = 0.25 ∧ simWeightSource = 0.15 ∧ simWeightChar = 0.25 ∧
    simWeightPattern = 0.15 ∧ simWeightColumn = 0.20 ∧
    simWeightRef + simWeightSource + simWeightChar + simWeightPattern +
      simWeightColumn = 1 :=
  ⟨calculate_similarity_some s1 s2, rfl, rfl, rfl, rfl, rfl, simWeights_sum⟩

attribute [local semireducible] Rat.ofScientific Rat.add Rat.mul Rat.inv Rat.sub in
/-- C1, counterexample.  `sigA` and `sigB` share a similarity bucket and
score `21/40 = 0.525` under the source's formula, while the specified
four-component formula — whatever value `t ∈ [0, 1]` the textual
similarity takes — is at least `0.6` on them (no textual-similarity
component exists in the source, and the spec's weights do not). -/
theorem C1_spec_formula_refuted :
    groupKey sigA = groupKey sigB ∧
    calculate_similarity (some sigA) (some sigB) = 21 / 40 ∧
    ∀ t : ℚ, 0 ≤ t →
      calculate_similarity (some sigA) (some sigB) ≠ specSimilarity t sigA sigB := by
  refine ⟨by decide, by decide, ?_⟩
  intro t ht hEq
  have h1 : setSimilarity sigA.refs sigB.refs = 1 := by decide
  have h2 : setSimilarity sigA.sources sigB.sources = 1 := by decide
  have h3 : specStructuralRatio sigA.characteristics sigB.characteristics = 1 := by
    decide
  have hv : calculate_similarity (some sigA) (some sigB) = 21 / 40 := by decide
  rw [hv] at hEq
  unfold specSimilarity at hEq
  rw [h1, h2, h3] at hEq
  norm_num at hEq
  linarith

/-- C3 (corrected).  A metrics row is flagged complex exactly when one
of FOUR trip-wires holds: complexity score above 70, more than 5 joins,
more than 5 references (absent from the spec's list), or SQL length
above 1000 characters. -/
theorem C3_complex_filter_four_tripwires (rows : List MetricsRow)
    (row : MetricsRow) :
    row ∈ complex_models rows ↔
      row ∈ rows ∧ (70 < row.complexity_score ∨ 5 < row.num_joins ∨
        5 < row.num_refs ∨ 1000 < row.sql_length) := by
  unfold complex_models
  rw [List.mem_filter]
  unfold isComplexRow
  simp only [Bool.or_eq_true, decide_eq_true_eq, gt_iff_lt]
  tauto

attribute [local semireducible] Rat.ofScientific Rat.add Rat.mul Rat.inv Rat.sub in
set_option maxRecDepth 100000 in
/-- C3, counterexample.  The model of `c3Manifest` trips none of the
spec's three wires (score 0, no joins, 8 characters of SQL) yet is
flagged complex, through its reference count of 6. -/
theorem C3_ref_count_tripwire_fires :
    get_model_complexity_metrics c3Manifest = some [c3Row] ∧
    complex_models [c3Row] = [c3Row] ∧
    ¬ (70 < c3Row.complexity_score) ∧ ¬ (5 < c3Row.num_joins) ∧
    ¬ (1000 < c3Row.sql_length) ∧ 5 < c3Row.num_refs := by
  refine ⟨by decide, by decide, by decide, by decide, by decide, by decide⟩

/-- C4 (corrected).  Parsing SQL with no SELECT anywhere does not fail:
whenever `parse_sql_components` succeeds on such a text it returns a
component whose main query is empty (there is no `MalformedSQL`
condition anywhere in the source). -/
theorem C4_no_select_empty_main (sqlIn : String) (c : SQLComponent)
    (hp : parse_sql_components sqlIn = some c)
    (hns : ¬ ("select".toList <:+: lowerStr sqlIn.toList)) :
    c.main_query = "" :=
  parse_main_query_of_no_select sqlIn c hp hns

set_option maxRecDepth 100000 in
theorem C4_no_select_empty_main_witness : c4Comp.main_query = "" :=
  C4_no_select_empty_main "foobar" c4Comp (by decide) (by decide)

attribute [local semireducible] Rat.ofScientific Rat.add Rat.mul Rat.inv Rat.sub in
set_option maxRecDepth 100000 in
/-- C4, counterexample.  `"foobar"` contains no SELECT, yet
`parse_sql_components` succeeds on it (empty main query), and the
metrics of `c4Manifest` report the model as an ordinary row with its
true SQL length 6 — not a zero-valued row with a parse-failure flag
(`MetricsRow` has no such flag). -/
theorem C4_no_malformed_sql :
    parse_sql_components "foobar" = some c4Comp ∧
    c4Comp.main_query = "" ∧
    get_model_complexity_metrics c4Manifest = some [c4Row] ∧
    c4Row.sql_length = 6 ∧ c4Row.complexity_score = 0 := by
  refine ⟨by decide, by decide, by decide, by decide, by decide⟩

set_option maxRecDepth 100000 in
/-- C2 (code bug).  On `demoManifest` the detector emits exactly
`demoFinding` (remove grandparent `stg_customers`, go through parent
`int_orders`); the generator accepts it, records `stg_customers` as the
removed reference — yet re-parsing its rewritten SQL finds the main
query still referencing `stg_customers` directly: the generator only
rewrites references to *removed CTE names*, and a direct `ref(G)` in the
main query is no CTE name, so the removed dependency is reintroduced. -/
theorem C2_roundtrip_keeps_grandparent :
    find_redundant_refs (analyze_ref_necessity demoManifest) demoManifest
        = [demoFinding] ∧
    (generate_refactored_sql demoManifest demoFinding).map
        (fun r => r.removed_ref) = some "stg_customers" ∧
    ((generate_refactored_sql demoManifest demoFinding).bind
        (fun r => parse_sql_components r.refactored_sql)).map
        (fun c => extractRefs c.main_query) = some ["stg_customers", "int_orders"] := by
  refine ⟨by decide, by decide, by decide⟩

/-- C5 (confirmed).  Every finding the detector emits — for any
necessity predicate, in particular the source's
`analyze_ref_necessity` — has a parent that is a known model of the
manifest and a grandparent that is a direct parent of that parent. -/
theorem C5_detector_wellformed (necess : String → String → String → Bool)
    (m : Manifest) (f : RedundantRef)
    (hf : f ∈ find_redundant_refs necess m) :
    (lookupModel m f.parent).isSome = true ∧
      f.grandparent ∈ get_model_parents m f.parent := by
  unfold find_redundant_refs at hf
  rw [List.mem_flatMap] at hf
  obtain ⟨p, hp, hf⟩ := hf
  rw [List.mem_flatMap] at hf
  obtain ⟨parent_ref, hpr, hf⟩ := hf
  split at hf
  · rename_i hsome
    rw [List.mem_filterMap] at hf
    obtain ⟨gp, hgp, hsome2⟩ := hf
    rw [List.mem_filter] at hgp
    split at hsome2
    · rw [Option.some.injEq] at hsome2
      subst hsome2
      refine ⟨hsome, ?_⟩
      have hgpmem := hgp.2
      simp only [decide_eq_true_eq] at hgpmem
      show gp ∈ get_model_parents m parent_ref
      unfold get_model_parents
      rw [parentsList_eq_graphRefsList, List.mem_toFinset]
      unfold get_model_refs graphRefs at hgpmem
      rw [List.mem_toFinset] at hgpmem
      exact hgpmem
    · cases hsome2
  · cases hf

set_option maxRecDepth 100000 in
theorem C5_detector_wellformed_witness :
    (lookupModel demoManifest demoFinding.parent).isSome = true ∧
      demoFinding.grandparent ∈ get_model_parents demoManifest demoFinding.parent :=
  C5_detector_wellformed (fun _ _ _ => true) demoManifest demoFinding (by decide)

/-- C6 (confirmed).  The similarity score is symmetric, under the
invariant — true of every Python dict — that neither signature's
`column_refs` repeats a key. -/
theorem C6_similarity_symmetric (s1 s2 : ModelSignature)
    (h1 : (s1.column_refs.map Prod.fst).Nodup)
    (h2 : (s2.column_refs.map Prod.fst).Nodup) :
    calculate_similarity (some s1) (some s2) =
      calculate_similarity (some s2) (some s1) :=
  calculate_similarity_comm h1 h2

theorem C6_similarity_symmetric_witness :
    calculate_similarity (some sigA) (some sigB) =
      calculate_similarity (some sigB) (some sigA) :=
  C6_similarity_symmetric sigA sigB (by decide) (by decide)

/-- C7 (corrected).  The breadth-first, visited-set de-duplicated
traversals are sound up to an off-by-one in the depth bound: with bound
`d` supplied, `get_all_ancestors` / `get_all_descendants` return only
nodes reachable within `d + 1` parent (resp. child) edges — not `d`, the
loop accumulates the neighbours of a node *at* the bound before checking
it — and without a bound every returned node is reachable at some finite
depth. -/
theorem C7_traversal_sound (m : Manifest) (id : String) (d : Nat) :
    get_all_ancestors m id (some d) ⊆
      reachWithin (fun x => (parentsList m x).toFinset) (d + 1) id ∧
    get_all_descendants m id (some d) ⊆
      reachWithin (fun x => (childrenList m x).toFinset) (d + 1) id ∧
    (∀ x ∈ get_all_ancestors m id none,
      ∃ k, x ∈ reachWithin (fun y => (parentsList m y).toFinset) k id) ∧
    (∀ x ∈ get_all_descendants m id none,
      ∃ k, x ∈ reachWithin (fun y => (childrenList m y).toFinset) k id) := by
  have hq : ∀ (adjL : String → List String),
      ∀ q ∈ ([(id, 0)] : List (String × Nat)),
        q.1 ∈ reachWithin (fun x => (adjL x).toFinset) q.2 id := by
    intro adjL q hqm
    rcases List.mem_singleton.mp hqm with rfl
    simp [reachWithin]
  refine ⟨?_, ?_, ?_, ?_⟩
  · exact bfsLoop_sound_bounded (parentsList m) d id (bfsFuel m) _ ∅ ∅
      (hq _) (Finset.empty_subset _)
  · exact bfsLoop_sound_bounded (childrenList m) d id (bfsFuel m) _ ∅ ∅
      (hq _) (Finset.empty_subset _)
  · exact bfsLoop_sound_unbounded (parentsList m) id (bfsFuel m) _ ∅ ∅
      (hq _) (fun x hx => absurd hx (Finset.not_mem_empty x))
  · exact bfsLoop_sound_unbounded (childrenList m) id (bfsFuel m) _ ∅ ∅
      (hq _) (fun x hx => absurd hx (Finset.not_mem_empty x))

set_option maxRecDepth 100000 in
/-- C7, counterexample.  On the chain `a → b → c`, ancestors of `a` with
depth bound 0 already contain `b`, one parent edge away — the spec's
"within at most d edges" reading would make the bound-0 result `{a}`
alone. -/
theorem C7_depth_bound_off_by_one :
    "model.p.b" ∈ get_all_ancestors chainManifest "model.p.a" (some 0) ∧
    "model.p.b" ∉
      reachWithin (fun x => (parentsList chainManifest x).toFinset) 0 "model.p.a" := by
  refine ⟨by decide, by decide⟩

/-- C8 (confirmed).  The complexity score — the weighted keyword counts
scaled by 5 and capped at 100 — lies in `[0, 100]` for every parsed
component (the cap bounds it above, and every summand is a nonnegative
count times a positive weight). -/
theorem C8_complexity_score_bounds (comp : SQLComponent) :
    0 ≤ calculate_complexity_score comp ∧
      calculate_complexity_score comp ≤ 100 := by
  unfold calculate_complexity_score
  dsimp only
  constructor
  · refine le_min (by norm_num) ?_
    positivity
  · exact min_le_left _ _

/-- C9 (confirmed).  For non-empty signatures each similarity component
lies in `[0, 1]`, the five internal weights sum to 1, and therefore the
total score lies in `[0, 1]`. -/
theorem C9_similarity_unit_interval (s1 s2 : ModelSignature) :
    (0 ≤ ref_similarity s1 s2 ∧ ref_similarity s1 s2 ≤ 1) ∧
    (0 ≤ source_similarity s1 s2 ∧ source_similarity s1 s2 ≤ 1) ∧
    (0 ≤ char_similarity s1 s2 ∧ char_similarity s1 s2 ≤ 1) ∧
    (0 ≤ pattern_similarity s1 s2 ∧ pattern_similarity s1 s2 ≤ 1) ∧
    (0 ≤ col_similarity s1 s2 ∧ col_similarity s1 s2 ≤ 1) ∧
    simWeightRef + simWeightSource + simWeightChar + simWeightPattern +
      simWeightColumn = 1 ∧
    0 ≤ calculate_similarity (some s1) (some s2) ∧
    calculate_similarity (some s1) (some s2) ≤ 1 :=
  ⟨⟨setSimilarity_nonneg s1.refs s2.refs, setSimilarity_le_one s1.refs s2.refs⟩,
   ⟨setSimilarity_nonneg s1.sources s2.sources,
    setSimilarity_le_one s1.sources s2.sources⟩,
   ⟨char_similarity_nonneg s1 s2, char_similarity_le_one s1 s2⟩,
   ⟨pattern_similarity_nonneg s1 s2, pattern_similarity_le_one s1 s2⟩,
   ⟨col_similarity_nonneg s1 s2, col_similarity_le_one s1 s2⟩,
   simWeights_sum,
   calculate_similarity_mem_unitInterval s1 s2⟩

/-- C10 (confirmed).  The parent and child views of the dependency graph
are exact duals: `y` is among the parents of `x` exactly when `x` is
among the children of `y` (for all identifiers, with membership empty
off the graph). -/
theorem C10_parent_child_duality (m : Manifest) (x y : String) :
    y ∈ get_model_parents m x ↔ x ∈ get_model_children m y := by
  unfold get_model_parents get_model_children
  rw [List.mem_toFinset, List.mem_toFinset, parentsList_eq_graphRefsList]
  unfold childrenList
  rw [List.mem_dedup]
  constructor
  · intro hy
    rcases hlk : lookupModel m x with _ | node
    · exfalso
      unfold graphRefsList at hy
      rw [hlk] at hy
      simp at hy
    · refine List.mem_map.mpr ⟨(x, node), List.mem_filter.mpr ⟨?_, ?_⟩, rfl⟩
      · exact pair_mem_of_lookup hlk
      · simp only [decide_eq_true_eq]
        exact List.mem_toFinset.mpr hy
  · intro hx
    rcases List.mem_map.mp hx with ⟨p, hp, rfl⟩
    rw [List.mem_filter] at hp
    have hy := hp.2
    simp only [decide_eq_true_eq] at hy
    unfold graphRefs at hy
    rw [List.mem_toFinset] at hy
    exact hy

end DbtRefactor
